import Mathlib

/-!
Shallow embedding of the station subsystem of the OpenTTD repository
(station_cmd.cpp), restricted to the parts needed by the verified claims:

* `FlowStat` (share-based routing): `GetShare`, `GetVia`, `ChangeShare`,
  `RestrictShare`, `ReleaseShare`.
* `UpdateStationRating`: the per-cargo rating update.
* `UpdateStationAcceptance`: the per-cargo acceptance bit.
* `CheckBuildableTile` and the caller loop threading `allowed_z`.
* `GetStationAround`: search for adjoining stations.
* `MakeStationAreaSmaller`: shrink of a facility rectangle.
* `GenerateStationName`: the industry spiral-scan phase.
* `RemoveFromRailBaseStation`: the per-tile removal loop.

C++ `std::map<uint32_t, StationID>` is embedded as a list of
`(boundary, station)` pairs kept sorted by boundary; `operator[]`
assignment is `mapInsert`.  Machine integers are embedded as `Nat`
(for `uint`) and `Int` (for `int`): every subtraction performed on a
`uint` in the embedded code is shown, under the sortedness invariant
the C++ `std::map` provides for free, never to underflow, so truncated
`Nat` subtraction agrees with the 32-bit semantics at every use site.
External collaborators (tile map accessors, random numbers, NewGRF
callbacks, vehicle queries) are passed in as explicit parameters.
-/

namespace OpenTTDStation

/-- A `StationID`; `StationID::Invalid()` is represented by `Option.none`
at use sites that may return it. -/
abbrev StationID := Nat

/-- The `SharesMap` of `FlowStat`: `std::map<uint32_t, StationID>`,
embedded as a list of (cumulative share boundary, station) pairs in
strictly increasing boundary order. -/
abbrev SharesMap := List (Nat × StationID)

/-- `std::map` `operator[]` assignment: insert keeping key order,
overwriting the value when the key is already present. -/
def mapInsert : SharesMap → Nat → StationID → SharesMap
  | [], k, v => [(k, v)]
  | (k', v') :: t, k, v =>
    if k < k' then (k, v) :: (k', v') :: t
    else if k = k' then (k, v) :: t
    else (k', v') :: mapInsert t k v

/-- `FlowStat`: the shares map together with the `unrestricted` boundary
(shares with boundary at most `unrestricted` are freely routable). -/
structure FlowStat where
  shares : SharesMap
  unrestricted : Nat
deriving Repr, DecidableEq

/-- Keys of a shares map are strictly increasing, all above `lb`.
The real `std::map` provides this by construction. -/
def SortedFrom (lb : Nat) : SharesMap → Prop
  | [] => True
  | (k, _) :: t => lb < k ∧ SortedFrom k t

instance instDecSortedFrom : (lb : Nat) → (s : SharesMap) → Decidable (SortedFrom lb s)
  | _, [] => isTrue trivial
  | lb, (k, _) :: t =>
    haveI := instDecSortedFrom k t
    inferInstanceAs (Decidable (lb < k ∧ SortedFrom k t))

/-- Last boundary of a shares map, `lb` when it is empty (matches the
total share mass for a sorted map starting at `lb`). -/
def lastKeyD (lb : Nat) : SharesMap → Nat
  | [] => lb
  | (k, _) :: t => lastKeyD k t

/-- Sum of the individual share sizes, each boundary minus its
predecessor (the predecessor of the first boundary being `prev`). -/
def sumSizes (prev : Nat) : SharesMap → Nat
  | [] => 0
  | (k, _) :: t => (k - prev) + sumSizes k t

/-- `SharesMap::upper_bound(r)` together with the predecessor boundary:
returns `(begin, end, dest)` for the first entry whose key is greater
than `r`, where `begin` is the key of the previous entry (`prev` when
the found entry is the first).  This packages the C++ idiom
`it = upper_bound(r); begin = (it == begin() ? 0 : (--it)->first)`. -/
def upperBoundFrom (prev : Nat) : SharesMap → Nat → Option (Nat × Nat × StationID)
  | [], _ => none
  | (k, v) :: t, r => if r < k then some (prev, k, v) else upperBoundFrom k t r

/-- `upper_bound` from the start of the map. -/
def upperBound (s : SharesMap) (r : Nat) : Option (Nat × Nat × StationID) :=
  upperBoundFrom 0 s r

/-- `FlowStat::GetShare`: flow for station `st` (the size of its share
block, 0 when absent). -/
def FlowStat.GetShare (fs : FlowStat) (st : StationID) : Nat :=
  go 0 fs.shares
where
  go (prev : Nat) : SharesMap → Nat
    | [] => 0
    | (k, v) :: t => if v = st then k - prev else go k t

/-- `FlowStat::GetVia(excluded, excluded2)`.  The three calls to
`RandomRange(n)` (uniform draw in `[0, n)`) are embedded by the draws
`r1 % n`, `r2 % n`, `r3 % n` for caller-supplied `r1 r2 r3`; the
returned `StationID::Invalid()` is `none`.  The code never calls
`RandomRange` with a zero bound (each bound is checked positive first),
so the modulus is always well defined. -/
def FlowStat.GetVia (fs : FlowStat) (excluded excluded2 : StationID)
    (r1 r2 r3 : Nat) : Option StationID :=
  if fs.unrestricted = 0 then none else
  match upperBound fs.shares (r1 % fs.unrestricted) with
  | none => none
  | some (b1, e1, d1) =>
    if d1 ≠ excluded ∧ d1 ≠ excluded2 then some d1 else
    -- We have hit one of the excluded stations: redraw outside its block.
    let interval := e1 - b1
    if fs.unrestricted ≤ interval then none else -- only one station in the map
    let newMax := fs.unrestricted - interval
    let rand := r2 % newMax
    let pos2 := if rand < b1 then rand else rand + interval
    match upperBound fs.shares pos2 with
    | none => none
    | some (b2, e2, d2) =>
      if d2 ≠ excluded ∧ d2 ≠ excluded2 then some d2 else
      -- We have hit the second excluded station as well.
      let interval2 := e2 - b2
      if newMax ≤ interval2 then none else -- only the two excluded stations
      let newMax2 := newMax - interval2
      -- the C++ swaps so that begin <= begin2
      let bl := if b1 > b2 then b2 else b1
      let il := if b1 > b2 then interval2 else interval
      let bh := if b1 > b2 then b1 else b2
      let ih := if b1 > b2 then interval else interval2
      let rand3 := r3 % newMax2
      let pos3 :=
        if rand3 < bl then rand3
        else if rand3 < bh - il then rand3 + il
        else rand3 + il + ih
      match upperBound fs.shares pos3 with
      | none => none
      | some (_, _, d3) => some d3

/-- `FlowStat::ReleaseShare(st)`: move `st`'s restricted share block to
the beginning of the map and grow `unrestricted` by its size.  The
reverse-iterator scan is embedded as `relPhase1` over the reversed
list; it yields `none` on any of the early `return` paths (in which
case the flow stat is left unchanged). -/
def relPhase1 (st : StationID) (unr : Nat) :
    List (Nat × StationID) → Nat → Bool → Option (Nat × Nat)
  | [], _, _ => none
  | (k, v) :: rest, next, found =>
    if k < unr then none
    else if found then some (next - k, unr + (next - k))
    else if k = unr then none
    else relPhase1 st unr rest k (found || (v = st))

/-- Second phase of `ReleaseShare`: rebuild the map with `st`'s block
first; `flow` is zeroed when `st`'s old entry is passed, so later
entries keep their keys. -/
def relPhase2 (st : StationID) : Nat → List (Nat × StationID) → SharesMap → SharesMap
  | _, [], acc => acc
  | flow, (k, v) :: rest, acc =>
    if v ≠ st then relPhase2 st flow rest (mapInsert acc (flow + k) v)
    else relPhase2 st 0 rest acc

/-- `FlowStat::ReleaseShare`. -/
def FlowStat.ReleaseShare (fs : FlowStat) (st : StationID) : FlowStat :=
  match relPhase1 st fs.unrestricted fs.shares.reverse 0 false with
  | none => fs
  | some (flow, unr') =>
    if flow = 0 then fs
    else { shares := relPhase2 st flow fs.shares (mapInsert [] flow st),
           unrestricted := unr' }

/-- `INT_MIN`, the sentinel magnitude for `FlowStat::ChangeShare`. -/
def intMin : Int := -(2 ^ 31)

/-- Loop state and result of the `ChangeShare` iteration.  All of the
C++ locals are returned so that the surrounding code (and the proofs)
can observe them. -/
structure CsState where
  acc : SharesMap
  flow : Int
  removed : Nat
  added : Nat
  lastShare : Nat
  unr : Nat
deriving Repr

/-- The per-entry loop of `FlowStat::ChangeShare`.  `uint` casts of the
non-sentinel negative `flow` are `(-flow).toNat`; `unrestricted += flow`
is computed in `Int` and clamped by `toNat` (it is shown never to be
negative for sorted inputs). -/
def csLoop (st : StationID) : List (Nat × StationID) → CsState → CsState
  | [], s => s
  | (k, v) :: rest, s =>
    if v = st then
      if s.flow < 0 then
        let share := k - s.lastShare
        if s.flow = intMin ∨ share ≤ (-s.flow).toNat then
          -- remove the whole share
          csLoop st rest
            { s with
              removed := s.removed + share
              unr := if k ≤ s.unr then s.unr - share else s.unr
              flow := if s.flow = intMin then s.flow else s.flow + share
              lastShare := k }
        else
          let removed' := s.removed + (-s.flow).toNat
          csLoop st rest
            { acc := mapInsert s.acc (k + s.added - removed') v
              flow := 0
              removed := removed'
              added := s.added
              lastShare := k
              unr := if k ≤ s.unr then ((s.unr : Int) + s.flow).toNat else s.unr }
      else
        let added' := s.added + s.flow.toNat
        csLoop st rest
          { acc := mapInsert s.acc (k + added' - s.removed) v
            flow := 0
            removed := s.removed
            added := added'
            lastShare := k
            unr := if k ≤ s.unr then ((s.unr : Int) + s.flow).toNat else s.unr }
    else
      csLoop st rest
        { s with
          acc := mapInsert s.acc (k + s.added - s.removed) v
          lastShare := k }

/-- `FlowStat::ChangeShare(st, flow)`.  When a positive remainder of
`flow` is appended beyond the restricted zone the C++ calls
`this->ReleaseShare(st)` before swapping in the new map, so only
its effect on `unrestricted` survives; the embedding reproduces that
by calling `ReleaseShare` on the old shares with the updated
`unrestricted` and keeping only the resulting `unrestricted`. -/
def FlowStat.ChangeShare (fs : FlowStat) (st : StationID) (flow : Int) : FlowStat :=
  let s := csLoop st fs.shares
    { acc := [], flow := flow, removed := 0, added := 0, lastShare := 0,
      unr := fs.unrestricted }
  if 0 < s.flow then
    let shares' := mapInsert s.acc (s.lastShare + s.flow.toNat) st
    if s.unr < s.lastShare then
      { shares := shares',
        unrestricted :=
          (FlowStat.ReleaseShare { shares := fs.shares, unrestricted := s.unr } st).unrestricted }
    else
      { shares := shares', unrestricted := s.unr + s.flow.toNat }
  else
    { shares := s.acc, unrestricted := s.unr }

/-- Loop of `FlowStat::RestrictShare(st)`: walk the map once; while
`flow = 0` the block of `st` is being searched for (with an early
`return` — `none` — as soon as a restricted key is reached), afterwards
the remaining entries are shifted down by `flow`. -/
def rsLoop (st : StationID) :
    List (Nat × StationID) → Nat → Nat → Nat → SharesMap →
    Option (SharesMap × Nat × Nat × Nat)
  | [], flow, last, unr, acc => some (acc, flow, last, unr)
  | (k, v) :: rest, flow, last, unr, acc =>
    if flow = 0 then
      if unr < k then none -- not present or already restricted
      else if v = st then rsLoop st rest (k - last) k (unr - (k - last)) acc
      else rsLoop st rest 0 k unr (mapInsert acc k v)
    else rsLoop st rest flow k unr (mapInsert acc (k - flow) v)

/-- `FlowStat::RestrictShare(st)`.  Note: the final insertion of the
moved block happens at key `last_share + flow` in this source tree. -/
def FlowStat.RestrictShare (fs : FlowStat) (st : StationID) : FlowStat :=
  match rsLoop st fs.shares 0 0 fs.unrestricted [] with
  | none => fs
  | some (acc, flow, last, unr) =>
    if flow = 0 then fs
    else { shares := mapInsert acc (last + flow) st, unrestricted := unr }

/-! ### Station rating (`UpdateStationRating`) -/

/-- `INITIAL_STATION_RATING` (station_base.h, outside this tree):
the level an unrated entry drifts up towards. -/
def INITIAL_STATION_RATING : Nat := 175

/-- `MAX_STATION_RATING` (station_base.h, outside this tree). -/
def MAX_STATION_RATING : Nat := 255

/-- The per-cargo fields of `GoodsEntry` read or written by the rating
update.  All byte fields are `Nat` values below 256. -/
structure GoodsEntryR where
  hasRating : Bool
  rating : Nat
  lastSpeed : Nat
  timeSincePickup : Nat
  maxWaitingCargo : Nat
  lastAge : Nat
deriving Repr, DecidableEq

/-- The ambient inputs of one rating update: cheat flag, the
`selectgoods` setting, the NewGRF rating callback (`none` when the
callback mask is unset or the callback failed, otherwise the raw
`uint16` result), the town statue bonus and the last vehicle type. -/
structure RatingEnv where
  cheat : Bool
  selectgoods : Bool
  callback : Option Nat
  statue : Bool
  isShip : Bool
deriving Repr, DecidableEq

/-- `ClampTo<uint8_t>` on an `int`. -/
def clampToByte (x : Int) : Nat := (max 0 (min 255 x)).toNat

/-- `byte_inc_sat`: increment a byte unless it would wrap. -/
def byteIncSat (b : Nat) : Nat := if b + 1 = 256 then b else b + 1

/-- One iteration of the per-cargo loop of `UpdateStationRating`,
producing the new goods entry.  The waiting-cargo bookkeeping and
truncation that follow the rating assignment never write
`ge->rating` and are outside the embedded state, so they are omitted.
The cheat path overwrites `ge->rating` before the `or_` snapshot is
taken, which the embedding reproduces via `preRating`. -/
def updateRatingOne (env : RatingEnv) (ge : GoodsEntryR) : GoodsEntryR :=
  if !ge.hasRating then
    if ge.rating < INITIAL_STATION_RATING then { ge with rating := ge.rating + 1 }
    else ge
  else
    let tsp := byteIncSat ge.timeSincePickup
    if tsp = 255 && env.selectgoods then
      { ge with hasRating := false, lastSpeed := 0, timeSincePickup := tsp }
    else
      -- (skip, rating accumulator, ge->rating at the clamp point)
      let init : Bool × Int × Nat :=
        if env.cheat then (true, (MAX_STATION_RATING : Int), MAX_STATION_RATING)
        else
          match env.callback with
          | some cb =>
            (true, ((cb % 2 ^ 14 : Nat) : Int) - (if Nat.testBit cb 14 then 2 ^ 14 else 0),
             ge.rating)
          | none => (false, 0, ge.rating)
      let skip := init.1
      let rating0 := init.2.1
      let preRating := init.2.2
      let rating1 : Int :=
        if skip then rating0
        else
          let b : Int := (ge.lastSpeed : Int) - 85
          let r1 := rating0 + (if 0 ≤ b then b / 4 else 0)
          let waittime := if env.isShip then tsp / 4 else tsp
          let r2 := r1 + (if waittime ≤ 21 then 25 else 0) + (if waittime ≤ 12 then 25 else 0)
            + (if waittime ≤ 6 then 45 else 0) + (if waittime ≤ 3 then 35 else 0)
          let r3 := r2 - 90
          r3 + (if ge.maxWaitingCargo ≤ 1500 then 55 else 0)
            + (if ge.maxWaitingCargo ≤ 1000 then 35 else 0)
            + (if ge.maxWaitingCargo ≤ 600 then 10 else 0)
            + (if ge.maxWaitingCargo ≤ 300 then 20 else 0)
            + (if ge.maxWaitingCargo ≤ 100 then 10 else 0)
      let rating2 := rating1 + (if env.statue then 26 else 0)
      let rating3 := rating2 + (if ge.lastAge < 3 then 10 else 0)
        + (if ge.lastAge < 2 then 10 else 0) + (if ge.lastAge < 1 then 13 else 0)
      let or_ : Int := preRating
      let newRating := clampToByte (or_ + max (-2) (min 2 (rating3 - or_)))
      { ge with rating := newRating, timeSincePickup := tsp }

/-! ### Acceptance (`UpdateStationAcceptance`) -/

/-- The station facility flags consulted by the acceptance update. -/
structure Facilities where
  train : Bool
  busStop : Bool
  truckStop : Bool
  airport : Bool
  dock : Bool
deriving Repr, DecidableEq

/-- The per-cargo body of the `UpdateStationAcceptance` loop: the
amount accumulated for this cargo around the station (`amtIn`, which
the caller zeroes when the station rectangle is empty), zeroed again
unless a facility compatible with the cargo class is present, then
thresholded at 8. -/
def acceptanceBit (fac : Facilities) (rectEmpty : Bool) (isPassengers : Bool)
    (amtIn : Nat) : Bool :=
  let amt0 := if rectEmpty then 0 else amtIn
  let amt :=
    if (!isPassengers && !(fac.train || fac.truckStop || fac.airport || fac.dock))
        || (isPassengers && !(fac.train || fac.busStop || fac.airport || fac.dock)) then 0
    else amt0
  8 ≤ amt

/-! ### Buildability (`CheckBuildableTile` and its caller loop) -/

/-- Command errors produced by `CheckBuildableTile`. -/
inductive BuildErr where
  | mustDemolishBridge
  | vehicleInWay
  | flatLandRequired
deriving Repr, DecidableEq

/-- The facts about one tile consumed by `CheckBuildableTile`, all
supplied by external tile-map collaborators: bridge presence, vehicle
occupation, `GetTileSlopeZ` (slope flatness, steepness, `z`),
`GetSlopeMaxZ` and `CanBuildDepotByTileh` per diagonal direction. -/
structure BTile where
  bridgeAbove : Bool
  vehicleOnGround : Bool
  steep : Bool
  slopeFlat : Bool
  maxZ : Nat
  z : Nat
  depotOk : Fin 4 → Bool
deriving DecidableEq

/-- Post-foundation elevation of a tile: `z + GetSlopeMaxZ(tileh)`. -/
def flatZ (t : BTile) : Int := (t.z : Int) + t.maxZ

/-- `CheckBuildableTile`.  On success it returns the (possibly updated)
`allowed_z` reference together with whether the foundation price was
charged; `build_on_slopes` is the global setting. -/
def CheckBuildableTile (buildOnSlopes : Bool) (t : BTile) (invalidDirs : Fin 4 → Bool)
    (allowedZ : Int) (allowSteep checkBridge : Bool) : Except BuildErr (Int × Bool) :=
  if checkBridge && t.bridgeAbove then .error .mustDemolishBridge
  else if t.vehicleOnGround then .error .vehicleInWay
  else if (!allowSteep && t.steep) || (!buildOnSlopes && !t.slopeFlat) then
    .error .flatLandRequired
  else if !t.slopeFlat && (List.finRange 4).any (fun d => invalidDirs d && !t.depotOk d) then
    .error .flatLandRequired
  else if allowedZ < 0 then .ok (flatZ t, !t.slopeFlat)
  else if allowedZ ≠ flatZ t then .error .flatLandRequired
  else .ok (allowedZ, !t.slopeFlat)

/-- The caller pattern (`CheckFlatLandAirport` and the rail/road
variants): check each footprint tile in turn with the shared
`allowed_z` reference (initially `-1`), aborting on the first error. -/
def checkTilesLoop (buildOnSlopes : Bool) (invalidDirs : Fin 4 → Bool)
    (allowSteep checkBridge : Bool) : List BTile → Int → Except BuildErr Int
  | [], az => .ok az
  | t :: ts, az =>
    match CheckBuildableTile buildOnSlopes t invalidDirs az allowSteep checkBridge with
    | .error e => .error e
    | .ok (az', _) => checkTilesLoop buildOnSlopes invalidDirs allowSteep checkBridge ts az'

/-! ### Adjoining-station search (`GetStationAround`) -/

/-- What `GetStationAround` needs to know about a candidate station
index: pool validity (`T::IsValidID`), owner, and the compatibility
filter result. -/
structure NearbyStation where
  valid : Bool
  owner : Nat
  filterOk : Bool

/-- Error of `GetStationAround`. -/
inductive AroundErr where
  | adjoinsMoreThanOne
deriving Repr, DecidableEq

/-- The scan loop of `GetStationAround` over the 1-tile-expanded area:
each tile is `some idx` when it is a station tile (`MP_STATION`) with
station index `idx`, `none` otherwise.  `closest` is the
`closest_station` accumulator (`none` for `StationID::Invalid()`).
On success the found station (or `none` meaning a new station may be
created) is returned. -/
def GetStationAroundLoop (info : Nat → NearbyStation) (company : Nat) :
    List (Option Nat) → Option Nat → Except AroundErr (Option Nat)
  | [], closest => .ok closest
  | none :: rest, closest => GetStationAroundLoop info company rest closest
  | some t :: rest, closest =>
    if !(info t).valid || (info t).owner ≠ company || !(info t).filterOk then
      GetStationAroundLoop info company rest closest
    else
      match closest with
      | none => GetStationAroundLoop info company rest (some t)
      | some c =>
        if c ≠ t then .error .adjoinsMoreThanOne
        else GetStationAroundLoop info company rest (some c)

/-- The station indices of the tiles that pass the validity, ownership
and filter checks, in scan order. -/
def passingIds (info : Nat → NearbyStation) (company : Nat)
    (tiles : List (Option Nat)) : List Nat :=
  tiles.filterMap fun o =>
    match o with
    | none => none
    | some t =>
      if !(info t).valid || (info t).owner ≠ company || !(info t).filterOk then none
      else some t

/-! ### Facility-rectangle shrink (`MakeStationAreaSmaller`) -/

/-- Is column `x` of the area (rows `y .. y+h-1`) free of member
tiles?  `f` is the `func` predicate (tile belongs to the station). -/
def colEmpty (f : Nat → Nat → Bool) (x y h : Nat) : Bool :=
  (List.range h).all fun i => !f x (y + i)

/-- Is row `y` of the area (columns `x .. x+w-1`) free of member tiles? -/
def rowEmpty (f : Nat → Nat → Bool) (x y w : Nat) : Bool :=
  (List.range w).all fun i => !f (x + i) y

/-- `MakeStationAreaSmaller`: drop empty border columns/rows, restarting
after each shrink (the C++ `goto restart`); an empty area is cleared
(`ta.Clear()`, modelled as zero extent). -/
def shrinkArea (f : Nat → Nat → Bool) (x y w h : Nat) : Nat × Nat × Nat × Nat :=
  if w = 0 ∨ h = 0 then (x, y, 0, 0)
  else if colEmpty f x y h then shrinkArea f (x + 1) y (w - 1) h
  else if colEmpty f (x + (w - 1)) y h then shrinkArea f x y (w - 1) h
  else if rowEmpty f x y w then shrinkArea f x (y + 1) w (h - 1)
  else if rowEmpty f x (y + (h - 1)) w then shrinkArea f x y w (h - 1)
  else (x, y, w, h)
termination_by w + h
decreasing_by all_goals omega

/-! ### Naming (`GenerateStationName`, industry scan phase) -/

/-- `STR_UNDEFINED`: the industry type names no station. -/
def STR_UNDEFINED : Nat := 0

/-- `STR_NULL`: the industry override that only blocks the fallbacks. -/
def STR_NULL : Nat := 1

/-- `STR_SV_STNAME_OILFIELD` fallback name slot. -/
def STR_SV_STNAME_OILFIELD : Nat := 10

/-- `STR_SV_STNAME_MINES` fallback name slot. -/
def STR_SV_STNAME_MINES : Nat := 11

/-- A tile of the spiral scan: whether it is an industry tile
(`MP_INDUSTRY`) and, if so, its industry type. -/
structure IndTile where
  isInd : Bool
  indtype : Nat
deriving Repr, DecidableEq

/-- The industry spiral scan of `GenerateStationName`.  `spec` maps an
industry type to its `station_name` override; `claimed` is
`sni.indtypes` (types already claimed by a same-named industry);
`used` is the set of used default-name slots.  Returns the updated
used set and `some indtype` when the station claims the industry name
(the `return STR_SV_STNAME_FALLBACK` path), `none` when the scan falls
through to the default-name cascade. -/
def indScanLoop (spec : Nat → Nat) (claimed : Nat → Bool) :
    List IndTile → List Nat → List Nat × Option Nat
  | [], used => (used, none)
  | t :: rest, used =>
    if !t.isInd then indScanLoop spec claimed rest used
    else if spec t.indtype = STR_UNDEFINED then indScanLoop spec claimed rest used
    else
      let used' := STR_SV_STNAME_OILFIELD :: STR_SV_STNAME_MINES :: used
      if claimed t.indtype then indScanLoop spec claimed rest used'
      else if spec t.indtype ≠ STR_NULL then (used', some t.indtype)
      else (used', none)

/-! ### Rail-station tile removal (`RemoveFromRailBaseStation`) -/

/-- Per-tile facts consumed by the removal loop, all supplied by
external collaborators: whether the tile is a rail-station tile,
the result of `EnsureNoVehicleOnGround` (`some code` on failure),
pool validity of the owning station, and the result of
`CheckOwnership` (`some code` on failure, ignored for the water
owner). -/
structure RTile where
  hasStationRail : Bool
  vehicleErr : Option Nat
  stValid : Bool
  ownerErr : Option Nat
deriving Repr, DecidableEq

/-- `STR_ERROR_THERE_IS_NO_STATION` (an error code distinct from the
per-tile collaborator codes used in the claims). -/
def STR_ERROR_THERE_IS_NO_STATION : Nat := 1000000

/-- Modelled from the spec: `CommandCost` error accumulation
(`command_type.h` is not part of this tree).  The accumulator keeps a
success flag and the error message of a failed cost added to it; the
surrounding loop (`if (error.Failed()) continue;`) skips the rest of a
tile as soon as the accumulator has failed.  The accumulator is
embedded as `Option Nat`: `none` is success, `some code` a failure. -/
def addCostErr (acc : Option Nat) (ret : Option Nat) : Option Nat :=
  match ret with
  | some c => some c
  | none => acc

/-- The per-tile loop of `RemoveFromRailBaseStation`, reduced to the
observable state the claims are about: the error accumulator, the
`quantity` of tiles that passed every check, and the list of tiles
mutated in the execute phase (each `DoClearSquare` target). -/
def removeLoop (isWater execute : Bool) :
    List RTile → Option Nat → Nat → List RTile → Option Nat × Nat × List RTile
  | [], acc, q, mtd => (acc, q, mtd)
  | t :: ts, acc, q, mtd =>
    if !t.hasStationRail then removeLoop isWater execute ts acc q mtd
    else
      let acc1 := addCostErr acc t.vehicleErr
      if acc1.isSome then removeLoop isWater execute ts acc1 q mtd
      else if !t.stValid then removeLoop isWater execute ts acc1 q mtd
      else
        let acc2 := if isWater then acc1 else addCostErr acc1 t.ownerErr
        if acc2.isSome then removeLoop isWater execute ts acc2 q mtd
        else
          removeLoop isWater execute ts acc2 (q + 1)
            (if execute then mtd ++ [t] else mtd)

/-- One iteration of the error accumulation of
`RemoveFromRailBaseStation` in isolation: the effect of a single tile
of the loop on the `CommandCost` error accumulator alone.  A non-rail
tile leaves the accumulator unchanged; otherwise the vehicle-check
result is added first; if the accumulator has failed the rest of the
tile is skipped; an invalid owning station skips the tile; otherwise
the ownership-check result is added unless the remover is the water
owner. -/
def removeErrStep (isWater : Bool) (acc : Option Nat) (t : RTile) : Option Nat :=
  if !t.hasStationRail then acc
  else
    let acc1 := addCostErr acc t.vehicleErr
    if acc1.isSome then acc1
    else if !t.stValid then acc1
    else if isWater then acc1 else addCostErr acc1 t.ownerErr

/-- The error accumulator of the per-tile loop of
`RemoveFromRailBaseStation`: the value of the `error` `CommandCost`
after the whole loop has run.  `removeLoop_fst_eq` proves it agrees
with the accumulator component of `removeLoop`. -/
def removeErrAcc (isWater : Bool) (acc : Option Nat) (tiles : List RTile) : Option Nat :=
  tiles.foldl (removeErrStep isWater) acc

/-- `RemoveFromRailBaseStation`, reduced to the failure/mutation
behaviour: when no tile passed the checks the command fails with the
accumulated error, or with `STR_ERROR_THERE_IS_NO_STATION` when none
was accumulated, before any of the per-station post-processing runs. -/
def RemoveFromRailBaseStation (isWater execute : Bool) (tiles : List RTile) :
    Except Nat Unit × List RTile :=
  let r := removeLoop isWater execute tiles none 0 []
  if r.2.1 = 0 then
    (.error (r.1.getD STR_ERROR_THERE_IS_NO_STATION), r.2.2)
  else (.ok (), r.2.2)

/-! ## Lemmas on sorted shares maps -/

theorem sortedFrom_nil (lb : Nat) : SortedFrom lb [] := trivial

theorem sortedFrom_cons {lb k : Nat} {v : StationID} {t : SharesMap} :
    SortedFrom lb ((k, v) :: t) ↔ lb < k ∧ SortedFrom k t := Iff.rfl

theorem sortedFrom_key_gt {lb : Nat} {s : SharesMap} (h : SortedFrom lb s) :
    ∀ k v, (k, v) ∈ s → lb < k := by
  induction s generalizing lb with
  | nil => simp
  | cons hd t ih =>
    obtain ⟨k0, v0⟩ := hd
    rw [sortedFrom_cons] at h
    obtain ⟨hlbk, hst⟩ := h
    intro k v hp
    rcases List.mem_cons.1 hp with heq | hp
    · simp only [Prod.mk.injEq] at heq
      omega
    · exact lt_trans hlbk (ih hst k v hp)

theorem lastKeyD_ge {lb : Nat} {s : SharesMap} (h : SortedFrom lb s) :
    lb ≤ lastKeyD lb s := by
  induction s generalizing lb with
  | nil => simp [lastKeyD]
  | cons hd t ih =>
    obtain ⟨k, v⟩ := hd
    rw [sortedFrom_cons] at h
    simpa [lastKeyD] using le_trans (le_of_lt h.1) (ih h.2)

theorem key_le_lastKeyD {lb : Nat} {s : SharesMap} (h : SortedFrom lb s) :
    ∀ k v, (k, v) ∈ s → k ≤ lastKeyD lb s := by
  induction s generalizing lb with
  | nil => simp
  | cons hd t ih =>
    obtain ⟨k0, v0⟩ := hd
    rw [sortedFrom_cons] at h
    intro k v hp
    rcases List.mem_cons.1 hp with heq | hp
    · simp only [Prod.mk.injEq] at heq
      have := lastKeyD_ge h.2
      simp only [lastKeyD]
      omega
    · simpa [lastKeyD] using ih h.2 k v hp

theorem lastKeyD_append (lb k : Nat) (v : StationID) (l : SharesMap) :
    lastKeyD lb (l ++ [(k, v)]) = k := by
  induction l generalizing lb with
  | nil => simp [lastKeyD]
  | cons hd t ih => obtain ⟨k', v'⟩ := hd; simpa [lastKeyD] using ih k'

theorem sumSizes_lastKeyD {prev : Nat} {s : SharesMap} (h : SortedFrom prev s) :
    sumSizes prev s + prev = lastKeyD prev s := by
  induction s generalizing prev with
  | nil => simp [sumSizes, lastKeyD]
  | cons hd t ih =>
    obtain ⟨k, v⟩ := hd
    rw [sortedFrom_cons] at h
    have hk := ih h.2
    simp only [sumSizes, lastKeyD]
    omega

theorem mapInsert_append {lb k : Nat} {v : StationID} {l : SharesMap}
    (h : SortedFrom lb l) (hk : lastKeyD lb l < k) :
    mapInsert l k v = l ++ [(k, v)] := by
  induction l generalizing lb with
  | nil => simp [mapInsert]
  | cons hd t ih =>
    obtain ⟨k', v'⟩ := hd
    rw [sortedFrom_cons] at h
    have hk' : lastKeyD k' t < k := by simpa [lastKeyD] using hk
    have hge : k' ≤ lastKeyD k' t := lastKeyD_ge h.2
    simp only [mapInsert, if_neg (by omega : ¬ k < k'), if_neg (by omega : ¬ k = k'),
      List.cons_append, List.cons.injEq, true_and]
    exact ih h.2 hk'

theorem sortedFrom_append {lb k : Nat} {v : StationID} {l : SharesMap}
    (h : SortedFrom lb l) (hk : lastKeyD lb l < k) :
    SortedFrom lb (l ++ [(k, v)]) := by
  induction l generalizing lb with
  | nil =>
    rw [List.nil_append, sortedFrom_cons]
    exact ⟨by simpa [lastKeyD] using hk, sortedFrom_nil k⟩
  | cons hd t ih =>
    obtain ⟨k', v'⟩ := hd
    rw [sortedFrom_cons] at h
    rw [List.cons_append, sortedFrom_cons]
    exact ⟨h.1, ih h.2 (by simpa [lastKeyD] using hk)⟩

theorem mem_mapInsert {l : SharesMap} {k : Nat} {v : StationID} :
    ∀ p ∈ mapInsert l k v, p = (k, v) ∨ p ∈ l := by
  induction l with
  | nil => simp [mapInsert]
  | cons hd t ih =>
    obtain ⟨k', v'⟩ := hd
    intro p hp
    simp only [mapInsert] at hp
    split_ifs at hp
    · rcases List.mem_cons.1 hp with rfl | hp
      · exact Or.inl rfl
      · exact Or.inr hp
    · rcases List.mem_cons.1 hp with rfl | hp
      · exact Or.inl rfl
      · exact Or.inr (List.mem_cons_of_mem _ hp)
    · rcases List.mem_cons.1 hp with rfl | hp
      · exact Or.inr (List.mem_cons_self _ _)
      · rcases ih p hp with h | h
        · exact Or.inl h
        · exact Or.inr (List.mem_cons_of_mem _ h)

/-! ## `ChangeShare` preserves the sorted-map invariant -/

theorem csLoop_invariant (st : StationID) (rem : List (Nat × StationID)) :
    ∀ s : CsState,
      SortedFrom s.lastShare rem →
      SortedFrom 0 s.acc →
      s.removed ≤ s.lastShare + s.added →
      lastKeyD 0 s.acc + s.removed ≤ s.lastShare + s.added →
      (0 < s.flow → s.added = 0 ∧ s.removed = 0) →
      SortedFrom 0 (csLoop st rem s).acc ∧
        lastKeyD 0 (csLoop st rem s).acc + (csLoop st rem s).removed ≤
          (csLoop st rem s).lastShare + (csLoop st rem s).added ∧
        (csLoop st rem s).removed ≤ (csLoop st rem s).lastShare + (csLoop st rem s).added ∧
        (0 < (csLoop st rem s).flow →
          (csLoop st rem s).added = 0 ∧ (csLoop st rem s).removed = 0) := by
  induction rem with
  | nil =>
    intro s h1 h2 h3 h4 h5
    exact ⟨h2, h4, h3, h5⟩
  | cons hd rest ih =>
    obtain ⟨k, v⟩ := hd
    intro s h1 h2 h3 h4 h5
    rw [sortedFrom_cons] at h1
    obtain ⟨hlt, hrest⟩ := h1
    by_cases hv : v = st
    · by_cases hf : s.flow < 0
      · by_cases hr : s.flow = intMin ∨ k - s.lastShare ≤ (-s.flow).toNat
        · -- remove the whole share
          have step : csLoop st ((k, v) :: rest) s =
              csLoop st rest
                { s with
                  removed := s.removed + (k - s.lastShare)
                  unr := if k ≤ s.unr then s.unr - (k - s.lastShare) else s.unr
                  flow := if s.flow = intMin then s.flow
                          else s.flow + ((k - s.lastShare : Nat) : Int)
                  lastShare := k } := by
            simp only [csLoop, if_pos hv, if_pos hf, if_pos hr]
          rw [step]
          have hb : s.removed + (k - s.lastShare) ≤ k + s.added := by omega
          have hc : lastKeyD 0 s.acc + (s.removed + (k - s.lastShare)) ≤ k + s.added := by
            omega
          have hd : (0 : Int) <
                (if s.flow = intMin then s.flow
                 else s.flow + ((k - s.lastShare : Nat) : Int)) →
              s.added = 0 ∧ s.removed + (k - s.lastShare) = 0 := by
            intro h0
            exfalso
            by_cases hmm : s.flow = intMin
            · rw [if_pos hmm, hmm] at h0
              have : intMin < 0 := by norm_num [intMin]
              omega
            · rw [if_neg hmm] at h0
              rcases hr with hm | hle
              · exact hmm hm
              · omega
          exact ih _ hrest h2 hb hc hd
        · -- partial removal
          have step : csLoop st ((k, v) :: rest) s =
              csLoop st rest
                { acc := mapInsert s.acc (k + s.added - (s.removed + (-s.flow).toNat)) v
                  flow := 0
                  removed := s.removed + (-s.flow).toNat
                  added := s.added
                  lastShare := k
                  unr := if k ≤ s.unr then ((s.unr : Int) + s.flow).toNat else s.unr } := by
            simp only [csLoop, if_pos hv, if_pos hf, if_neg hr]
          rw [step]
          push_neg at hr
          obtain ⟨-, hshare⟩ := hr
          have hins : mapInsert s.acc (k + s.added - (s.removed + (-s.flow).toNat)) v =
              s.acc ++ [(k + s.added - (s.removed + (-s.flow).toNat), v)] :=
            mapInsert_append h2 (by omega)
          have ha : SortedFrom 0
              (mapInsert s.acc (k + s.added - (s.removed + (-s.flow).toNat)) v) := by
            rw [hins]
            exact sortedFrom_append h2 (by omega)
          have hb : lastKeyD 0
                (mapInsert s.acc (k + s.added - (s.removed + (-s.flow).toNat)) v) +
                (s.removed + (-s.flow).toNat) ≤ k + s.added := by
            rw [hins, lastKeyD_append]
            omega
          have hc : s.removed + (-s.flow).toNat ≤ k + s.added := by omega
          have hd : (0 : Int) < 0 → s.added = 0 ∧ s.removed + (-s.flow).toNat = 0 := by
            intro h0
            exact absurd h0 (by omega)
          exact ih _ hrest ha hc hb hd
      · -- flow is non-negative: add the whole amount here
        have step : csLoop st ((k, v) :: rest) s =
            csLoop st rest
              { acc := mapInsert s.acc (k + (s.added + s.flow.toNat) - s.removed) v
                flow := 0
                removed := s.removed
                added := s.added + s.flow.toNat
                lastShare := k
                unr := if k ≤ s.unr then ((s.unr : Int) + s.flow).toNat else s.unr } := by
          simp only [csLoop, if_pos hv, if_neg hf]
        rw [step]
        have hins : mapInsert s.acc (k + (s.added + s.flow.toNat) - s.removed) v =
            s.acc ++ [(k + (s.added + s.flow.toNat) - s.removed, v)] :=
          mapInsert_append h2 (by omega)
        have ha : SortedFrom 0
            (mapInsert s.acc (k + (s.added + s.flow.toNat) - s.removed) v) := by
          rw [hins]
          exact sortedFrom_append h2 (by omega)
        have hb : lastKeyD 0
              (mapInsert s.acc (k + (s.added + s.flow.toNat) - s.removed) v) +
              s.removed ≤ k + (s.added + s.flow.toNat) := by
          rw [hins, lastKeyD_append]
          omega
        have hc : s.removed ≤ k + (s.added + s.flow.toNat) := by omega
        have hd : (0 : Int) < 0 → s.added + s.flow.toNat = 0 ∧ s.removed = 0 := by
          intro h0
          exact absurd h0 (by omega)
        exact ih _ hrest ha hc hb hd
    · -- entry of another station: keep it, shifted
      have step : csLoop st ((k, v) :: rest) s =
          csLoop st rest
            { s with
              acc := mapInsert s.acc (k + s.added - s.removed) v
              lastShare := k } := by
        simp only [csLoop, if_neg hv]
      rw [step]
      have hins : mapInsert s.acc (k + s.added - s.removed) v =
          s.acc ++ [(k + s.added - s.removed, v)] :=
        mapInsert_append h2 (by omega)
      have ha : SortedFrom 0 (mapInsert s.acc (k + s.added - s.removed) v) := by
        rw [hins]
        exact sortedFrom_append h2 (by omega)
      have hb : lastKeyD 0 (mapInsert s.acc (k + s.added - s.removed) v) +
          s.removed ≤ k + s.added := by
        rw [hins, lastKeyD_append]
        omega
      have hc : s.removed ≤ k + s.added := by omega
      exact ih _ hrest ha hc hb h5

theorem csLoop_intMin (st : StationID) (rem : List (Nat × StationID)) :
    ∀ s : CsState, s.flow = intMin → (∀ p ∈ s.acc, p.2 ≠ st) →
      (∀ p ∈ (csLoop st rem s).acc, p.2 ≠ st) ∧ (csLoop st rem s).flow = intMin := by
  induction rem with
  | nil => intro s h1 h2; exact ⟨h2, h1⟩
  | cons hd rest ih =>
    obtain ⟨k, v⟩ := hd
    intro s h1 h2
    by_cases hv : v = st
    · have hf : s.flow < 0 := by rw [h1]; norm_num [intMin]
      have hr : s.flow = intMin ∨ k - s.lastShare ≤ (-s.flow).toNat := Or.inl h1
      have step : csLoop st ((k, v) :: rest) s =
          csLoop st rest
            { s with
              removed := s.removed + (k - s.lastShare)
              unr := if k ≤ s.unr then s.unr - (k - s.lastShare) else s.unr
              flow := if s.flow = intMin then s.flow
                      else s.flow + ((k - s.lastShare : Nat) : Int)
              lastShare := k } := by
        simp only [csLoop, if_pos hv, if_pos hf, if_pos hr]
      rw [step]
      have hflow : (if s.flow = intMin then s.flow
          else s.flow + ((k - s.lastShare : Nat) : Int)) = intMin := by
        rw [if_pos h1, h1]
      exact ih _ hflow h2
    · have step : csLoop st ((k, v) :: rest) s =
          csLoop st rest
            { s with
              acc := mapInsert s.acc (k + s.added - s.removed) v
              lastShare := k } := by
        simp only [csLoop, if_neg hv]
      rw [step]
      have hacc : ∀ p ∈ mapInsert s.acc (k + s.added - s.removed) v, p.2 ≠ st := by
        intro p hp
        rcases mem_mapInsert p hp with rfl | hp
        · exact hv
        · exact h2 p hp
      exact ih _ h1 hacc

theorem ChangeShare_sorted (fs : FlowStat) (st : StationID) (flow : Int)
    (hs : SortedFrom 0 fs.shares) : SortedFrom 0 (fs.ChangeShare st flow).shares := by
  have inv := csLoop_invariant st fs.shares
    { acc := [], flow := flow, removed := 0, added := 0, lastShare := 0,
      unr := fs.unrestricted }
    hs (sortedFrom_nil 0) (Nat.zero_le _) (by simp [lastKeyD]) (fun _ => ⟨rfl, rfl⟩)
  obtain ⟨hA, hB, hC, hD⟩ := inv
  unfold FlowStat.ChangeShare
  set r := csLoop st fs.shares
    { acc := [], flow := flow, removed := 0, added := 0, lastShare := 0,
      unr := fs.unrestricted } with hr
  by_cases h0 : 0 < r.flow
  · obtain ⟨ha0, hr0⟩ := hD h0
    have hkey : lastKeyD 0 r.acc < r.lastShare + r.flow.toNat := by omega
    have hins := mapInsert_append (v := st) hA hkey
    have hsorted : SortedFrom 0 (mapInsert r.acc (r.lastShare + r.flow.toNat) st) := by
      rw [hins]
      exact sortedFrom_append hA hkey
    rw [if_pos h0]
    split_ifs with h1
    · exact hsorted
    · exact hsorted
  · rw [if_neg h0]
    exact hA

theorem ChangeShare_removes (fs : FlowStat) (X : StationID) :
    ∀ p ∈ (fs.ChangeShare X intMin).shares, p.2 ≠ X := by
  have h := csLoop_intMin X fs.shares
    { acc := [], flow := intMin, removed := 0, added := 0, lastShare := 0,
      unr := fs.unrestricted } rfl (by simp)
  unfold FlowStat.ChangeShare
  set r := csLoop X fs.shares
    { acc := [], flow := intMin, removed := 0, added := 0, lastShare := 0,
      unr := fs.unrestricted } with hr
  have h0 : ¬ 0 < r.flow := by
    rw [h.2]
    norm_num [intMin]
  rw [if_neg h0]
  exact h.1

/-! ## Claim theorems for the flow-share invariants -/

/-- C2: for every (sorted, as `std::map` guarantees) `FlowStat`, the sum
of all individual share sizes — each boundary minus its predecessor —
equals the final, largest boundary value; this invariant is preserved
by `ChangeShare` (for any station and any delta); and after
`ChangeShare(X, INT_MIN)` station `X` appears in no share of the
result. -/
theorem changeShare_share_conservation (fs : FlowStat) (st X : StationID) (flow : Int)
    (hs : SortedFrom 0 fs.shares) :
    sumSizes 0 fs.shares = lastKeyD 0 fs.shares ∧
      sumSizes 0 (fs.ChangeShare st flow).shares =
        lastKeyD 0 (fs.ChangeShare st flow).shares ∧
      ∀ p ∈ (fs.ChangeShare X intMin).shares, p.2 ≠ X := by
  refine ⟨?_, ?_, ChangeShare_removes fs X⟩
  · have h := sumSizes_lastKeyD hs
    omega
  · have h := sumSizes_lastKeyD (ChangeShare_sorted fs st flow hs)
    omega

/-- Witness for C2 at a concrete flow stat: shares 1 ↦ 5, 2 ↦ 3
(boundaries 5 and 8), unrestricted boundary 5; `ChangeShare(1, 4)`
and full removal of station 2. -/
theorem changeShare_share_conservation_witness :
    SortedFrom 0 (FlowStat.mk [(5, 1), (8, 2)] 5).shares ∧
      (sumSizes 0 (FlowStat.mk [(5, 1), (8, 2)] 5).shares =
          lastKeyD 0 (FlowStat.mk [(5, 1), (8, 2)] 5).shares ∧
        sumSizes 0 ((FlowStat.mk [(5, 1), (8, 2)] 5).ChangeShare 1 4).shares =
          lastKeyD 0 ((FlowStat.mk [(5, 1), (8, 2)] 5).ChangeShare 1 4).shares ∧
        ∀ p ∈ ((FlowStat.mk [(5, 1), (8, 2)] 5).ChangeShare 2 intMin).shares, p.2 ≠ 2) :=
  ⟨by decide, changeShare_share_conservation (FlowStat.mk [(5, 1), (8, 2)] 5) 1 2 4
    (by decide)⟩

/-- C3 (failing input): for the flow stat with shares 1 ↦ 5 and 2 ↦ 3
(boundaries 5 and 8) and unrestricted boundary 5 — destination 1 is the
only unrestricted destination — `RestrictShare(1)` followed by
`ReleaseShare(1)` does not restore the original: `RestrictShare`
re-inserts the moved block at `last_share + flow`, growing the total
share mass by the moved size, so the round trip returns boundaries
10 and 13 with unrestricted boundary 10. -/
theorem restrictShare_releaseShare_roundtrip_fails :
    (FlowStat.RestrictShare (FlowStat.mk [(5, 1), (8, 2)] 5) 1 =
        FlowStat.mk [(3, 2), (13, 1)] 0) ∧
      (FlowStat.ReleaseShare (FlowStat.RestrictShare (FlowStat.mk [(5, 1), (8, 2)] 5) 1) 1 =
        FlowStat.mk [(10, 1), (13, 2)] 10) ∧
      FlowStat.ReleaseShare (FlowStat.RestrictShare (FlowStat.mk [(5, 1), (8, 2)] 5) 1) 1 ≠
        FlowStat.mk [(5, 1), (8, 2)] 5 := by
  refine ⟨by decide, by decide, by decide⟩

/-! ## Lemmas on `upper_bound` for the `GetVia` proof -/

theorem ubf_mem {lb r : Nat} {s : SharesMap} {b e : Nat} {d : StationID}
    (h : upperBoundFrom lb s r = some (b, e, d)) : (e, d) ∈ s := by
  induction s generalizing lb with
  | nil => simp [upperBoundFrom] at h
  | cons hd t ih =>
    obtain ⟨k, v⟩ := hd
    simp only [upperBoundFrom] at h
    split_ifs at h with hrk
    · simp only [Option.some.injEq, Prod.mk.injEq] at h
      obtain ⟨-, h2, h3⟩ := h
      subst h2
      subst h3
      exact List.mem_cons_self _ _
    · exact List.mem_cons_of_mem _ (ih h)

theorem ubf_lb_le {lb r : Nat} {s : SharesMap} {b e : Nat} {d : StationID}
    (hs : SortedFrom lb s) (h : upperBoundFrom lb s r = some (b, e, d)) : lb ≤ b := by
  induction s generalizing lb with
  | nil => simp [upperBoundFrom] at h
  | cons hd t ih =>
    obtain ⟨k, v⟩ := hd
    rw [sortedFrom_cons] at hs
    simp only [upperBoundFrom] at h
    split_ifs at h with hrk
    · simp only [Option.some.injEq, Prod.mk.injEq] at h
      omega
    · exact le_trans (le_of_lt hs.1) (ih hs.2 h)

theorem ubf_range {lb r : Nat} {s : SharesMap} {b e : Nat} {d : StationID}
    (hlb : lb ≤ r) (h : upperBoundFrom lb s r = some (b, e, d)) : b ≤ r ∧ r < e := by
  induction s generalizing lb with
  | nil => simp [upperBoundFrom] at h
  | cons hd t ih =>
    obtain ⟨k, v⟩ := hd
    simp only [upperBoundFrom] at h
    split_ifs at h with hrk
    · simp only [Option.some.injEq, Prod.mk.injEq] at h
      omega
    · exact ih (by omega) h

theorem ubf_isSome {lb r : Nat} {s : SharesMap} (hs : SortedFrom lb s) (hlb : lb ≤ r)
    (hr : r < lastKeyD lb s) :
    ∃ b e d, upperBoundFrom lb s r = some (b, e, d) := by
  induction s generalizing lb with
  | nil => simp only [lastKeyD] at hr; omega
  | cons hd t ih =>
    obtain ⟨k, v⟩ := hd
    rw [sortedFrom_cons] at hs
    by_cases hrk : r < k
    · exact ⟨lb, k, v, by simp [upperBoundFrom, hrk]⟩
    · obtain ⟨b, e, d, hbed⟩ := ih hs.2 (by omega) hr
      exact ⟨b, e, d, by simp [upperBoundFrom, hrk, hbed]⟩

theorem ubf_minimal {lb r : Nat} {s : SharesMap} {b e : Nat} {d : StationID}
    (hs : SortedFrom lb s) (h : upperBoundFrom lb s r = some (b, e, d)) :
    ∀ k v, (k, v) ∈ s → b < k → e ≤ k := by
  induction s generalizing lb with
  | nil => simp [upperBoundFrom] at h
  | cons hd t ih =>
    obtain ⟨k0, v0⟩ := hd
    rw [sortedFrom_cons] at hs
    simp only [upperBoundFrom] at h
    split_ifs at h with hrk
    · simp only [Option.some.injEq, Prod.mk.injEq] at h
      obtain ⟨h1, h2, h3⟩ := h
      subst h2
      intro k v hp hbp
      rcases List.mem_cons.1 hp with heq | hp
      · simp only [Prod.mk.injEq] at heq
        omega
      · exact le_of_lt (sortedFrom_key_gt hs.2 k v hp)
    · have hkb : k0 ≤ b := ubf_lb_le hs.2 h
      intro k v hp hbp
      rcases List.mem_cons.1 hp with heq | hp
      · simp only [Prod.mk.injEq] at heq
        omega
      · exact ih hs.2 h k v hp hbp

theorem ubf_begin_mem {lb r : Nat} {s : SharesMap} {b e : Nat} {d : StationID}
    (h : upperBoundFrom lb s r = some (b, e, d)) :
    b = lb ∨ ∃ w, (b, w) ∈ s := by
  induction s generalizing lb with
  | nil => simp [upperBoundFrom] at h
  | cons hd t ih =>
    obtain ⟨k, v⟩ := hd
    simp only [upperBoundFrom] at h
    split_ifs at h with hrk
    · simp only [Option.some.injEq, Prod.mk.injEq] at h
      exact Or.inl h.1.symm
    · rcases ih h with hb | ⟨w, hw⟩
      · exact Or.inr ⟨v, hb ▸ List.mem_cons_self _ _⟩
      · exact Or.inr ⟨w, List.mem_cons_of_mem _ hw⟩

theorem ubf_pred_unique {lb r r' : Nat} {s : SharesMap} {b e b' e' : Nat}
    {d d' : StationID} (hs : SortedFrom lb s)
    (h : upperBoundFrom lb s r = some (b, e, d))
    (h' : upperBoundFrom lb s r' = some (b', e', d')) (hee : e = e') :
    b = b' ∧ d = d' := by
  induction s generalizing lb with
  | nil => simp [upperBoundFrom] at h
  | cons hd t ih =>
    obtain ⟨k, v⟩ := hd
    rw [sortedFrom_cons] at hs
    simp only [upperBoundFrom] at h h'
    split_ifs at h h' with hrk hrk'
    · simp only [Option.some.injEq, Prod.mk.injEq] at h h'
      obtain ⟨hb, he, hd⟩ := h
      obtain ⟨hb', he', hd'⟩ := h'
      exact ⟨hb.symm.trans hb', hd.symm.trans hd'⟩
    · exfalso
      simp only [Option.some.injEq, Prod.mk.injEq] at h
      have hmem := ubf_mem h'
      have := sortedFrom_key_gt hs.2 e' d' hmem
      omega
    · exfalso
      simp only [Option.some.injEq, Prod.mk.injEq] at h'
      have hmem := ubf_mem h
      have := sortedFrom_key_gt hs.2 e d hmem
      omega
    · exact ih hs.2 h h'

theorem sorted_key_val_unique {lb : Nat} {s : SharesMap} (hs : SortedFrom lb s) :
    ∀ k v v', (k, v) ∈ s → (k, v') ∈ s → v = v' := by
  induction s generalizing lb with
  | nil => simp
  | cons hd t ih =>
    obtain ⟨k0, v0⟩ := hd
    rw [sortedFrom_cons] at hs
    intro k v v' hv hv'
    rcases List.mem_cons.1 hv with heq | hv <;> rcases List.mem_cons.1 hv' with heq' | hv'
    · simp only [Prod.mk.injEq] at heq heq'
      rw [heq.2, heq'.2]
    · exfalso
      simp only [Prod.mk.injEq] at heq
      have := sortedFrom_key_gt hs.2 k v' hv'
      omega
    · exfalso
      simp only [Prod.mk.injEq] at heq'
      have := sortedFrom_key_gt hs.2 k v hv
      omega
    · exact ih hs.2 k v v' hv hv'

theorem nodup_snd_key_unique {s : SharesMap} (h : (s.map Prod.snd).Nodup) :
    ∀ k k' v, (k, v) ∈ s → (k', v) ∈ s → k = k' := by
  induction s with
  | nil => simp
  | cons hd t ih =>
    obtain ⟨k0, v0⟩ := hd
    rw [List.map_cons, List.nodup_cons] at h
    intro k k' v hv hv'
    rcases List.mem_cons.1 hv with heq | hv <;> rcases List.mem_cons.1 hv' with heq' | hv'
    · simp only [Prod.mk.injEq] at heq heq'
      omega
    · exfalso
      simp only [Prod.mk.injEq] at heq
      have hm : v ∈ t.map Prod.snd := List.mem_map_of_mem Prod.snd hv'
      rw [heq.2] at hm
      exact h.1 hm
    · exfalso
      simp only [Prod.mk.injEq] at heq'
      have hm : v ∈ t.map Prod.snd := List.mem_map_of_mem Prod.snd hv
      rw [heq'.2] at hm
      exact h.1 hm
    · exact ih h.2 k k' v hv hv'

theorem ubf_b_lt_e {lb r : Nat} {s : SharesMap} {b e : Nat} {d : StationID}
    (hs : SortedFrom lb s) (h : upperBoundFrom lb s r = some (b, e, d)) : b < e := by
  induction s generalizing lb with
  | nil => simp [upperBoundFrom] at h
  | cons hd t ih =>
    obtain ⟨k, v⟩ := hd
    rw [sortedFrom_cons] at hs
    simp only [upperBoundFrom] at h
    split_ifs at h with hrk
    · simp only [Option.some.injEq, Prod.mk.injEq] at h
      omega
    · exact ih hs.2 h

theorem blocks_disjoint {s : SharesMap} (hs : SortedFrom 0 s) {r r' : Nat}
    {b e b' e' : Nat} {d d' : StationID}
    (h : upperBoundFrom 0 s r = some (b, e, d))
    (h' : upperBoundFrom 0 s r' = some (b', e', d')) (hne : e ≠ e') :
    e ≤ b' ∨ e' ≤ b := by
  rcases Nat.lt_trichotomy b b' with hbb | hbb | hbb
  · left
    rcases ubf_begin_mem h' with hb0 | ⟨w, hw⟩
    · omega
    · exact ubf_minimal hs h b' w hw hbb
  · exfalso
    have h1 : b < e := ubf_b_lt_e hs h
    have h2 : b' < e' := ubf_b_lt_e hs h'
    have h3 : e' ≤ e := ubf_minimal hs h' e d (ubf_mem h) (by omega)
    have h4 : e ≤ e' := ubf_minimal hs h e' d' (ubf_mem h') (by omega)
    omega
  · right
    rcases ubf_begin_mem h with hb0 | ⟨w, hw⟩
    · omega
    · exact ubf_minimal hs h' b w hw hbb

theorem one_block_covers {s : SharesMap} (hs : SortedFrom 0 s) {r u : Nat}
    {b e : Nat} {d : StationID} (h : upperBoundFrom 0 s r = some (b, e, d))
    (heu : e ≤ u) (hcov : u ≤ e - b) :
    ∀ k v, (k, v) ∈ s → k ≤ u → v = d := by
  have hbe : b < e := ubf_b_lt_e hs h
  intro k v hkv hku
  have hk0 : 0 < k := sortedFrom_key_gt hs k v hkv
  have hek : e ≤ k := ubf_minimal hs h k v hkv (by omega)
  have hke : k = e := by omega
  exact sorted_key_val_unique hs k v d hkv (by rw [hke]; exact ubf_mem h)

theorem two_blocks_cover {s : SharesMap} (hs : SortedFrom 0 s) {r r' u : Nat}
    {b e b' e' : Nat} {d d' : StationID}
    (h : upperBoundFrom 0 s r = some (b, e, d))
    (h' : upperBoundFrom 0 s r' = some (b', e', d'))
    (hne : e ≠ e') (heu : e ≤ u) (heu' : e' ≤ u)
    (hcov : u ≤ (e - b) + (e' - b')) :
    ∀ k v, (k, v) ∈ s → k ≤ u → v = d ∨ v = d' := by
  have hbe : b < e := ubf_b_lt_e hs h
  have hbe' : b' < e' := ubf_b_lt_e hs h'
  rcases blocks_disjoint hs h h' hne with hdj | hdj
  · -- the block of `d` sits below the block of `d'`, so together they
    -- tile the whole unrestricted range
    intro k v hkv hku
    have hk0 : 0 < k := sortedFrom_key_gt hs k v hkv
    have hek : e ≤ k := ubf_minimal hs h k v hkv (by omega)
    by_cases hke : k = e
    · exact Or.inl (sorted_key_val_unique hs k v d hkv (by rw [hke]; exact ubf_mem h))
    · have hek' : e' ≤ k := ubf_minimal hs h' k v hkv (by omega)
      have hke' : k = e' := by omega
      exact Or.inr (sorted_key_val_unique hs k v d' hkv (by rw [hke']; exact ubf_mem h'))
  · intro k v hkv hku
    have hk0 : 0 < k := sortedFrom_key_gt hs k v hkv
    have hek' : e' ≤ k := ubf_minimal hs h' k v hkv (by omega)
    by_cases hke' : k = e'
    · exact Or.inr (sorted_key_val_unique hs k v d' hkv (by rw [hke']; exact ubf_mem h'))
    · have hek : e ≤ k := ubf_minimal hs h k v hkv (by omega)
      have hke : k = e := by omega
      exact Or.inl (sorted_key_val_unique hs k v d hkv (by rw [hke]; exact ubf_mem h))

theorem third_draw_avoids {s : SharesMap} (hs : SortedFrom 0 s)
    (hnd : (s.map Prod.snd).Nodup) {u w rl rh q : Nat}
    {bL eL bH eH : Nat} {dL dH : StationID}
    (hw : (u, w) ∈ s)
    (hL : upperBoundFrom 0 s rl = some (bL, eL, dL))
    (hH : upperBoundFrom 0 s rh = some (bH, eH, dH))
    (hpu : q < u)
    (hoL : q < bL ∨ eL ≤ q) (hoH : q < bH ∨ eH ≤ q) :
    ∃ b3 e3 d3, upperBoundFrom 0 s q = some (b3, e3, d3) ∧ d3 ≠ dL ∧ d3 ≠ dH := by
  have hulast : u ≤ lastKeyD 0 s := key_le_lastKeyD hs u w hw
  obtain ⟨b3, e3, d3, h3⟩ := ubf_isSome (r := q) hs (Nat.zero_le _) (by omega)
  obtain ⟨hb3, he3⟩ := ubf_range (Nat.zero_le _) h3
  refine ⟨b3, e3, d3, h3, ?_, ?_⟩
  · intro he
    have hne : e3 ≠ eL := by
      intro hee
      obtain ⟨hb, -⟩ := ubf_pred_unique hs h3 hL hee
      omega
    exact hne (nodup_snd_key_unique hnd e3 eL d3 (ubf_mem h3) (by rw [he]; exact ubf_mem hL))
  · intro he
    have hne : e3 ≠ eH := by
      intro hee
      obtain ⟨hb, -⟩ := ubf_pred_unique hs h3 hH hee
      omega
    exact hne (nodup_snd_key_unique hnd e3 eH d3 (ubf_mem h3) (by rw [he]; exact ubf_mem hH))

theorem getVia_cases (fs : FlowStat) (A B : StationID) (r1 r2 r3 : Nat)
    (hs : SortedFrom 0 fs.shares)
    (hnd : (fs.shares.map Prod.snd).Nodup)
    (hu : ∃ w, (fs.unrestricted, w) ∈ fs.shares)
    (h0 : 0 < fs.unrestricted) :
    (∃ d, fs.GetVia A B r1 r2 r3 = some d ∧ d ≠ A ∧ d ≠ B) ∨
      (fs.GetVia A B r1 r2 r3 = none ∧
        ∀ k v, (k, v) ∈ fs.shares → k ≤ fs.unrestricted → v = A ∨ v = B) := by
  obtain ⟨w, hw⟩ := hu
  have hne0 : ¬ fs.unrestricted = 0 := by omega
  have hulast : fs.unrestricted ≤ lastKeyD 0 fs.shares := key_le_lastKeyD hs _ _ hw
  -- first draw
  have hpos1 : r1 % fs.unrestricted < fs.unrestricted := Nat.mod_lt _ h0
  obtain ⟨b1, e1, d1, h1⟩ :=
    ubf_isSome (r := r1 % fs.unrestricted) hs (Nat.zero_le _) (by omega)
  obtain ⟨hb1r, hre1⟩ := ubf_range (Nat.zero_le _) h1
  have hm1 : (e1, d1) ∈ fs.shares := ubf_mem h1
  have he1u : e1 ≤ fs.unrestricted := ubf_minimal hs h1 _ _ hw (by omega)
  simp only [FlowStat.GetVia, upperBound, if_neg hne0, h1]
  by_cases hd1 : d1 ≠ A ∧ d1 ≠ B
  · rw [if_pos hd1]
    exact Or.inl ⟨d1, rfl, hd1⟩
  · rw [if_neg hd1]
    have hd1' : d1 = A ∨ d1 = B := by tauto
    by_cases hi1 : fs.unrestricted ≤ e1 - b1
    · rw [if_pos hi1]
      refine Or.inr ⟨rfl, ?_⟩
      intro k v hkv hku
      have hv1 := one_block_covers hs h1 he1u hi1 k v hkv hku
      rw [hv1]
      exact hd1'
    · rw [if_neg hi1]
      -- second draw
      have hnm1 : 0 < fs.unrestricted - (e1 - b1) := by omega
      have hr2 : r2 % (fs.unrestricted - (e1 - b1)) < fs.unrestricted - (e1 - b1) :=
        Nat.mod_lt _ hnm1
      have hpos2u :
          (if r2 % (fs.unrestricted - (e1 - b1)) < b1 then
            r2 % (fs.unrestricted - (e1 - b1))
          else r2 % (fs.unrestricted - (e1 - b1)) + (e1 - b1)) < fs.unrestricted := by
        split_ifs <;> omega
      have hpos2out :
          (if r2 % (fs.unrestricted - (e1 - b1)) < b1 then
            r2 % (fs.unrestricted - (e1 - b1))
          else r2 % (fs.unrestricted - (e1 - b1)) + (e1 - b1)) < b1 ∨
          e1 ≤ (if r2 % (fs.unrestricted - (e1 - b1)) < b1 then
            r2 % (fs.unrestricted - (e1 - b1))
          else r2 % (fs.unrestricted - (e1 - b1)) + (e1 - b1)) := by
        split_ifs with hc
        · exact Or.inl hc
        · right
          omega
      obtain ⟨b2, e2, d2, h2⟩ :=
        ubf_isSome
          (r := if r2 % (fs.unrestricted - (e1 - b1)) < b1 then
            r2 % (fs.unrestricted - (e1 - b1))
          else r2 % (fs.unrestricted - (e1 - b1)) + (e1 - b1))
          hs (Nat.zero_le _) (by omega)
      obtain ⟨hb2r, hre2⟩ := ubf_range (Nat.zero_le _) h2
      have hm2 : (e2, d2) ∈ fs.shares := ubf_mem h2
      have he2u : e2 ≤ fs.unrestricted := ubf_minimal hs h2 _ _ hw (by omega)
      simp only [h2]
      have hee : e2 ≠ e1 := by
        intro he
        obtain ⟨hbb, -⟩ := ubf_pred_unique hs h2 h1 he
        omega
      have hdd : d2 ≠ d1 := by
        intro he
        exact hee (nodup_snd_key_unique hnd e2 e1 d2 hm2 (by rw [he]; exact hm1))
      by_cases hd2 : d2 ≠ A ∧ d2 ≠ B
      · rw [if_pos hd2]
        exact Or.inl ⟨d2, rfl, hd2⟩
      · rw [if_neg hd2]
        have hd2' : d2 = A ∨ d2 = B := by tauto
        by_cases hi2 : fs.unrestricted - (e1 - b1) ≤ e2 - b2
        · rw [if_pos hi2]
          refine Or.inr ⟨rfl, ?_⟩
          intro k v hkv hku
          have hv2 := two_blocks_cover hs h1 h2 (fun he => hee he.symm) he1u he2u
            (by omega) k v hkv hku
          rcases hv2 with rfl | rfl
          · exact hd1'
          · exact hd2'
        · rw [if_neg hi2]
          -- third draw
          have hdisj : e1 ≤ b2 ∨ e2 ≤ b1 :=
            blocks_disjoint hs h1 h2 (fun he => hee he.symm)
          have hb1e1 : b1 < e1 := by omega
          have hb2e2 : b2 < e2 := by omega
          have hr3lt : r3 % (fs.unrestricted - (e1 - b1) - (e2 - b2)) <
              fs.unrestricted - (e1 - b1) - (e2 - b2) := Nat.mod_lt _ (by omega)
          by_cases hswap : b2 < b1
          · -- C++ swaps: low block is block 2, high block is block 1
            have hd21 : e2 ≤ b1 := by
              rcases hdisj with hx | hx <;> omega
            simp only [if_pos hswap]
            obtain ⟨b3, e3, d3, h3, hd3L, hd3H⟩ :=
              third_draw_avoids (q :=
                if r3 % (fs.unrestricted - (e1 - b1) - (e2 - b2)) < b2 then
                  r3 % (fs.unrestricted - (e1 - b1) - (e2 - b2))
                else if r3 % (fs.unrestricted - (e1 - b1) - (e2 - b2)) < b1 - (e2 - b2) then
                  r3 % (fs.unrestricted - (e1 - b1) - (e2 - b2)) + (e2 - b2)
                else r3 % (fs.unrestricted - (e1 - b1) - (e2 - b2)) + (e2 - b2) + (e1 - b1))
                hs hnd hw h2 h1
                (by split_ifs <;> omega)
                (by split_ifs with hc1 hc2
                    · exact Or.inl hc1
                    · right; omega
                    · right; omega)
                (by split_ifs with hc1 hc2
                    · left; omega
                    · left; omega
                    · right; omega)
            simp only [h3]
            refine Or.inl ⟨d3, rfl, ?_, ?_⟩
            · rcases hd2' with h2A | h2B
              · exact h2A ▸ hd3L
              · rcases hd1' with h1A | h1B
                · exact h1A ▸ hd3H
                · exact absurd (h2B.trans h1B.symm) hdd
            · rcases hd2' with h2A | h2B
              · rcases hd1' with h1A | h1B
                · exact absurd (h2A.trans h1A.symm) hdd
                · exact h1B ▸ hd3H
              · exact h2B ▸ hd3L
          · -- no swap: low block is block 1, high block is block 2
            have hd12 : e1 ≤ b2 := by
              rcases hdisj with hx | hx <;> omega
            simp only [if_neg hswap]
            obtain ⟨b3, e3, d3, h3, hd3L, hd3H⟩ :=
              third_draw_avoids (q :=
                if r3 % (fs.unrestricted - (e1 - b1) - (e2 - b2)) < b1 then
                  r3 % (fs.unrestricted - (e1 - b1) - (e2 - b2))
                else if r3 % (fs.unrestricted - (e1 - b1) - (e2 - b2)) < b2 - (e1 - b1) then
                  r3 % (fs.unrestricted - (e1 - b1) - (e2 - b2)) + (e1 - b1)
                else r3 % (fs.unrestricted - (e1 - b1) - (e2 - b2)) + (e1 - b1) + (e2 - b2))
                hs hnd hw h1 h2
                (by split_ifs <;> omega)
                (by split_ifs with hc1 hc2
                    · exact Or.inl hc1
                    · right; omega
                    · right; omega)
                (by split_ifs with hc1 hc2
                    · left; omega
                    · left; omega
                    · right; omega)
            simp only [h3]
            refine Or.inl ⟨d3, rfl, ?_, ?_⟩
            · rcases hd2' with h2A | h2B
              · exact h2A ▸ hd3H
              · rcases hd1' with h1A | h1B
                · exact h1A ▸ hd3L
                · exact absurd (h2B.trans h1B.symm) hdd
            · rcases hd2' with h2A | h2B
              · rcases hd1' with h1A | h1B
                · exact absurd (h2A.trans h1A.symm) hdd
                · exact h1B ▸ hd3L
              · exact h2B ▸ hd3H

/-- C1: for every sorted `FlowStat` whose destinations are pairwise
distinct and whose `unrestricted` boundary is one of its share
boundaries, with at least one unrestricted share, `GetVia(A, B)` never
returns `A` or `B` (for every outcome of the three random draws), and
it returns the invalid station (`none`) only if `A` and `B` together
account for all unrestricted share mass (every share at or below the
unrestricted boundary belongs to `A` or `B`). -/
theorem getVia_exclusion_safe (fs : FlowStat) (A B : StationID) (r1 r2 r3 : Nat)
    (hs : SortedFrom 0 fs.shares)
    (hnd : (fs.shares.map Prod.snd).Nodup)
    (hu : ∃ w, (fs.unrestricted, w) ∈ fs.shares)
    (h0 : 0 < fs.unrestricted) :
    (fs.GetVia A B r1 r2 r3 ≠ some A ∧ fs.GetVia A B r1 r2 r3 ≠ some B) ∧
      (fs.GetVia A B r1 r2 r3 = none →
        ∀ k v, (k, v) ∈ fs.shares → k ≤ fs.unrestricted → v = A ∨ v = B) := by
  rcases getVia_cases fs A B r1 r2 r3 hs hnd hu h0 with ⟨d, hd, hA, hB⟩ | ⟨hn, hcov⟩
  · refine ⟨⟨?_, ?_⟩, ?_⟩
    · rw [hd]
      intro h
      exact hA (Option.some.inj h)
    · rw [hd]
      intro h
      exact hB (Option.some.inj h)
    · rw [hd]
      intro h
      cases h
  · refine ⟨⟨?_, ?_⟩, fun _ => hcov⟩
    · rw [hn]
      simp
    · rw [hn]
      simp

/-- Witness for C1 at a concrete flow stat (three unrestricted shares
for stations 1, 2, 3; boundaries 5, 8, 12; unrestricted boundary 12)
with both stations 1 and 2 excluded and all three draws zero. -/
theorem getVia_exclusion_safe_witness :
    (((FlowStat.mk [(5, 1), (8, 2), (12, 3)] 12).GetVia 1 2 0 0 0 ≠ some 1 ∧
        (FlowStat.mk [(5, 1), (8, 2), (12, 3)] 12).GetVia 1 2 0 0 0 ≠ some 2) ∧
      ((FlowStat.mk [(5, 1), (8, 2), (12, 3)] 12).GetVia 1 2 0 0 0 = none →
        ∀ k v, (k, v) ∈ (FlowStat.mk [(5, 1), (8, 2), (12, 3)] 12).shares →
          k ≤ (FlowStat.mk [(5, 1), (8, 2), (12, 3)] 12).unrestricted →
          v = 1 ∨ v = 2)) :=
  getVia_exclusion_safe (FlowStat.mk [(5, 1), (8, 2), (12, 3)] 12) 1 2 0 0 0
    (by decide) (by decide) ⟨3, by decide⟩ (by decide)

/-! ## Claim theorems for the rating engine -/

theorem clampToByte_step_close (o : Nat) (x : Int) (ho : o ≤ 255) :
    (clampToByte ((o : Int) + max (-2) (min 2 (x - o))) : Int) - o ≤ 2 ∧
      (o : Int) - clampToByte ((o : Int) + max (-2) (min 2 (x - o))) ≤ 2 := by
  unfold clampToByte
  have h1 : (-2 : Int) ≤ max (-2) (min 2 (x - o)) := le_max_left _ _
  have h2 : max (-2) (min 2 (x - o)) ≤ 2 := max_le (by norm_num) (min_le_left _ _)
  generalize max (-2) (min 2 (x - (o : Int))) = c at h1 h2
  have h3 : (0 : Int) ≤ max 0 (min 255 ((o : Int) + c)) := le_max_left _ _
  rw [Int.toNat_of_nonneg h3]
  rcases min_cases (255 : Int) ((o : Int) + c) with ⟨hmin, hc⟩ | ⟨hmin, hc⟩ <;>
    rw [hmin] <;>
    rcases max_cases (0 : Int) (min (255 : Int) ((o : Int) + c)) with ⟨hmax, hc'⟩ | ⟨hmax, hc'⟩ <;>
      rw [hmin] at hmax <;> rw [hmax] <;> omega

/-- C4: for every rating-update step on a rated cargo entry with the
station-rating cheat disabled, the per-cargo rating after
`UpdateStationRating` differs from the rating before by at most 2 in
absolute value (the byte-typed rating is below 256).  The cheat is the
explicit reset excluded by the claim; creation of a new station and
re-enabling of a disabled rating happen outside this function. -/
theorem updateStationRating_delta_le_two (env : RatingEnv) (ge : GoodsEntryR)
    (hcheat : env.cheat = false) (hr : ge.rating ≤ 255) :
    ((updateRatingOne env ge).rating : Int) - ge.rating ≤ 2 ∧
      (ge.rating : Int) - (updateRatingOne env ge).rating ≤ 2 := by
  unfold updateRatingOne
  by_cases h1 : ge.hasRating
  · simp only [h1, Bool.not_true, Bool.false_eq_true, if_false, hcheat]
    by_cases h2 : (byteIncSat ge.timeSincePickup = 255 && env.selectgoods) = true
    · rw [if_pos h2]
      constructor
      · show (ge.rating : Int) - ge.rating ≤ 2
        omega
      · show (ge.rating : Int) - ge.rating ≤ 2
        omega
    · rw [if_neg h2]
      cases hcb : env.callback with
      | none => exact clampToByte_step_close ge.rating _ hr
      | some cb => exact clampToByte_step_close ge.rating _ hr
  · simp only [h1, Bool.not_false, if_true]
    split_ifs with h3
    · constructor
      · show ((ge.rating + 1 : Nat) : Int) - ge.rating ≤ 2
        omega
      · show (ge.rating : Int) - ((ge.rating + 1 : Nat) : Int) ≤ 2
        omega
    · omega

/-- Witness for C4: a rated entry at rating 100 with a high candidate
rating (fast last speed, short wait, small backlog, fresh cargo, town
statue), no cheat: the step moves the rating by at most 2. -/
theorem updateStationRating_delta_le_two_witness :
    ((updateRatingOne (RatingEnv.mk false false none true false)
        (GoodsEntryR.mk true 100 200 0 0 0)).rating : Int) - 100 ≤ 2 ∧
      (100 : Int) - (updateRatingOne (RatingEnv.mk false false none true false)
        (GoodsEntryR.mk true 100 200 0 0 0)).rating ≤ 2 :=
  updateStationRating_delta_le_two (RatingEnv.mk false false none true false)
    (GoodsEntryR.mk true 100 200 0 0 0) rfl (by norm_num)

/-! ## Claim theorems for acceptance thresholding -/

/-- C5: after `UpdateStationAcceptance` runs on a station with a
non-empty rectangle, a cargo's acceptance bit is set iff the
accumulated acceptance amount is at least 8 and the station has a
facility compatible with the cargo class: passenger cargo needs a
train, bus stop, airport or dock facility, other cargo needs a train,
truck stop, airport or dock facility. -/
theorem updateStationAcceptance_threshold (fac : Facilities) (isPassengers : Bool)
    (amt : Nat) (rectEmpty : Bool) (h : rectEmpty = false) :
    acceptanceBit fac rectEmpty isPassengers amt = true ↔
      (8 ≤ amt ∧
        (if isPassengers then fac.train || fac.busStop || fac.airport || fac.dock
         else fac.train || fac.truckStop || fac.airport || fac.dock) = true) := by
  subst h
  unfold acceptanceBit
  obtain ⟨t, bs, ts, ap, dk⟩ := fac
  cases isPassengers <;> cases t <;> cases bs <;> cases ts <;> cases ap <;> cases dk <;>
    simp

/-- Witness for C5: train-only station, freight cargo, amount 8. -/
theorem updateStationAcceptance_threshold_witness :
    acceptanceBit (Facilities.mk true false false false false) false false 8 = true ↔
      (8 ≤ 8 ∧
        (if false then true || false || false || false
         else true || false || false || false) = true) :=
  updateStationAcceptance_threshold (Facilities.mk true false false false false)
    false 8 false rfl

/-! ## Claim theorems for buildability -/

theorem checkBuildableTile_ok_first (buildOnSlopes : Bool) (t : BTile)
    (invalidDirs : Fin 4 → Bool) (az : Int) (allowSteep checkBridge : Bool)
    (haz : az < 0) :
    ∀ z' paid,
      CheckBuildableTile buildOnSlopes t invalidDirs az allowSteep checkBridge =
        .ok (z', paid) → z' = flatZ t := by
  intro z' paid h
  unfold CheckBuildableTile at h
  split_ifs at h <;> first
    | exact Except.noConfusion h
    | omega
    | (simp only [Except.ok.injEq, Prod.mk.injEq] at h; exact h.1.symm)

theorem checkBuildableTile_ok_later (buildOnSlopes : Bool) (t : BTile)
    (invalidDirs : Fin 4 → Bool) (az : Int) (allowSteep checkBridge : Bool)
    (haz : 0 ≤ az) :
    ∀ z' paid,
      CheckBuildableTile buildOnSlopes t invalidDirs az allowSteep checkBridge =
        .ok (z', paid) → z' = az ∧ flatZ t = az := by
  intro z' paid h
  unfold CheckBuildableTile at h
  split_ifs at h <;> first
    | exact Except.noConfusion h
    | omega
    | (simp only [Except.ok.injEq, Prod.mk.injEq] at h
       refine ⟨h.1.symm, ?_⟩
       omega)

theorem checkTilesLoop_all_match (buildOnSlopes : Bool) (invalidDirs : Fin 4 → Bool)
    (allowSteep checkBridge : Bool) :
    ∀ (l : List BTile) (az z' : Int), 0 ≤ az →
      checkTilesLoop buildOnSlopes invalidDirs allowSteep checkBridge l az = .ok z' →
      z' = az ∧ ∀ t' ∈ l, flatZ t' = az := by
  intro l
  induction l with
  | nil =>
    intro az z' haz h
    simp only [checkTilesLoop, Except.ok.injEq] at h
    exact ⟨h.symm, by simp⟩
  | cons t ts ih =>
    intro az z' haz h
    simp only [checkTilesLoop] at h
    cases hc : CheckBuildableTile buildOnSlopes t invalidDirs az allowSteep checkBridge with
    | error e => rw [hc] at h; cases h
    | ok p =>
      rw [hc] at h
      obtain ⟨az1, paid⟩ := p
      obtain ⟨hz, hflat⟩ := checkBuildableTile_ok_later buildOnSlopes t invalidDirs az
        allowSteep checkBridge haz az1 paid hc
      rw [hz] at h
      obtain ⟨hz', hall⟩ := ih az z' haz h
      refine ⟨hz', ?_⟩
      intro t' ht'
      rcases List.mem_cons.1 ht' with rfl | ht'
      · exact hflat
      · exact hall t' ht'

/-- C6: the per-tile buildability check fixes the first checked tile's
post-foundation elevation as the required elevation for the whole
footprint: a first successful check (called with negative `allowed_z`)
sets `allowed_z` to that tile's post-foundation elevation; every
subsequent tile whose post-foundation elevation differs never succeeds,
and — when it passes the bridge, vehicle and slope checks that come
first — fails precisely with the "flat land required" error; and when
the whole footprint loop succeeds, every tile's post-foundation
elevation equals the first tile's. -/
theorem buildable_fixes_footprint_elevation (buildOnSlopes : Bool) (t t0 : BTile)
    (invalidDirs : Fin 4 → Bool) (az : Int) (allowSteep checkBridge : Bool)
    (tiles : List BTile) :
    (az < 0 → ∀ z' paid,
      CheckBuildableTile buildOnSlopes t invalidDirs az allowSteep checkBridge =
        .ok (z', paid) → z' = flatZ t) ∧
      (0 ≤ az → flatZ t ≠ az → ∀ r,
        CheckBuildableTile buildOnSlopes t invalidDirs az allowSteep checkBridge ≠ .ok r) ∧
      (0 ≤ az → flatZ t ≠ az →
        (checkBridge && t.bridgeAbove) = false →
        t.vehicleOnGround = false →
        ((!allowSteep && t.steep) || (!buildOnSlopes && !t.slopeFlat)) = false →
        (!t.slopeFlat && (List.finRange 4).any fun d => invalidDirs d && !t.depotOk d) = false →
        CheckBuildableTile buildOnSlopes t invalidDirs az allowSteep checkBridge =
          .error .flatLandRequired) ∧
      (∀ z', checkTilesLoop buildOnSlopes invalidDirs allowSteep checkBridge
          (t0 :: tiles) (-1) = .ok z' →
        z' = flatZ t0 ∧ ∀ t' ∈ tiles, flatZ t' = flatZ t0) := by
  refine ⟨checkBuildableTile_ok_first _ _ _ _ _ _, ?_, ?_, ?_⟩
  · intro haz hne r h
    obtain ⟨z', paid⟩ := r
    obtain ⟨-, hflat⟩ := checkBuildableTile_ok_later buildOnSlopes t invalidDirs az
      allowSteep checkBridge haz z' paid h
    exact hne hflat
  · intro haz hne h1 h2 h3 h4
    unfold CheckBuildableTile
    rw [if_neg (by simp [h1]), if_neg (by simp [h2]), if_neg (by simp [h3]),
      if_neg (by simp [h4]), if_neg (by omega), if_pos (fun he => hne he.symm)]
  · intro z' h
    simp only [checkTilesLoop] at h
    cases hc : CheckBuildableTile buildOnSlopes t0 invalidDirs (-1) allowSteep checkBridge with
    | error e => rw [hc] at h; cases h
    | ok p =>
      rw [hc] at h
      obtain ⟨az1, paid⟩ := p
      have hz1 := checkBuildableTile_ok_first buildOnSlopes t0 invalidDirs (-1)
        allowSteep checkBridge (by norm_num) az1 paid hc
      subst hz1
      obtain ⟨hz', hall⟩ := checkTilesLoop_all_match buildOnSlopes invalidDirs
        allowSteep checkBridge tiles (flatZ t0) z' (by unfold flatZ; positivity) h
      exact ⟨hz', hall⟩

/-- Witness for C6: a flat tile at height 2 checked against an already
fixed allowed elevation 3 fails with the "flat land required" error. -/
theorem buildable_fixes_footprint_elevation_witness :
    CheckBuildableTile true (BTile.mk false false false true 0 2 (fun _ => true))
        (fun _ => false) 3 false true = .error .flatLandRequired :=
  (buildable_fixes_footprint_elevation true
      (BTile.mk false false false true 0 2 (fun _ => true))
      (BTile.mk false false false true 0 2 (fun _ => true))
      (fun _ => false) 3 false true
      [BTile.mk false false false true 0 2 (fun _ => true)]).2.2.1
    (by norm_num) (by norm_num [flatZ]) rfl rfl rfl rfl

/-! ## Claim theorems for the adjoining-station scan -/

theorem gsa_loop_some (info : Nat → NearbyStation) (company : Nat) :
    ∀ (tiles : List (Option Nat)) (c : Nat),
      ((∀ x ∈ passingIds info company tiles, x = c) →
        GetStationAroundLoop info company tiles (some c) = .ok (some c)) ∧
      ((∃ x ∈ passingIds info company tiles, x ≠ c) →
        GetStationAroundLoop info company tiles (some c) = .error .adjoinsMoreThanOne) := by
  intro tiles
  induction tiles with
  | nil =>
    intro c
    constructor
    · intro _
      rfl
    · rintro ⟨x, hx, -⟩
      simp [passingIds] at hx
  | cons o rest ih =>
    intro c
    cases o with
    | none =>
      simpa only [GetStationAroundLoop, passingIds, List.filterMap_cons_none] using ih c
    | some t =>
      by_cases hp : (!(info t).valid || (info t).owner ≠ company || !(info t).filterOk) = true
      · have hloop : GetStationAroundLoop info company (some t :: rest) (some c) =
            GetStationAroundLoop info company rest (some c) := by
          simp only [GetStationAroundLoop, if_pos hp]
        have hpass : passingIds info company (some t :: rest) =
            passingIds info company rest := by
          simp only [passingIds, List.filterMap_cons]
          rw [if_pos hp]
        rw [hloop, hpass]
        exact ih c
      · have hpass : passingIds info company (some t :: rest) =
            t :: passingIds info company rest := by
          simp only [passingIds, List.filterMap_cons]
          rw [if_neg hp]
        by_cases hct : c = t
        · have hloop : GetStationAroundLoop info company (some t :: rest) (some c) =
              GetStationAroundLoop info company rest (some c) := by
            simp only [GetStationAroundLoop, if_neg hp, if_neg (by omega : ¬ c ≠ t)]
          rw [hloop, hpass]
          constructor
          · intro hall
            exact (ih c).1 fun x hx => hall x (List.mem_cons_of_mem _ hx)
          · rintro ⟨x, hx, hxc⟩
            rcases List.mem_cons.1 hx with rfl | hx
            · exact absurd hct.symm hxc
            · exact (ih c).2 ⟨x, hx, hxc⟩
        · have hloop : GetStationAroundLoop info company (some t :: rest) (some c) =
              .error .adjoinsMoreThanOne := by
            simp only [GetStationAroundLoop, if_neg hp, if_pos (by omega : c ≠ t)]
          rw [hloop, hpass]
          constructor
          · intro hall
            exact absurd (hall t (List.mem_cons_self _ _)).symm hct
          · intro _
            rfl

/-- C7: the `GetStationAround` scan over the 1-tile-expanded area,
entered with no explicit join target (`closest_station` invalid): with
zero passing station tiles it reports that a new station may be
created (`none`); with exactly one distinct passing station it returns
that station; with two or more distinct compatible company-owned
stations it fails with the "adjoins more than one existing station"
error — and, being a pure query, mutates nothing. -/
theorem getStationAround_ring_scan (info : Nat → NearbyStation) (company : Nat)
    (tiles : List (Option Nat)) :
    (passingIds info company tiles = [] →
      GetStationAroundLoop info company tiles none = .ok none) ∧
      (∀ s, s ∈ passingIds info company tiles →
        (∀ x ∈ passingIds info company tiles, x = s) →
        GetStationAroundLoop info company tiles none = .ok (some s)) ∧
      (∀ a b, a ∈ passingIds info company tiles → b ∈ passingIds info company tiles →
        a ≠ b →
        GetStationAroundLoop info company tiles none = .error .adjoinsMoreThanOne) := by
  induction tiles with
  | nil =>
    refine ⟨fun _ => rfl, ?_, ?_⟩
    · intro s hs
      simp [passingIds] at hs
    · intro a b ha
      simp [passingIds] at ha
  | cons o rest ih =>
    cases o with
    | none =>
      simpa only [GetStationAroundLoop, passingIds, List.filterMap_cons_none] using ih
    | some t =>
      by_cases hp : (!(info t).valid || (info t).owner ≠ company || !(info t).filterOk) = true
      · have hloop : GetStationAroundLoop info company (some t :: rest) none =
            GetStationAroundLoop info company rest none := by
          simp only [GetStationAroundLoop, if_pos hp]
        have hpass : passingIds info company (some t :: rest) =
            passingIds info company rest := by
          simp only [passingIds, List.filterMap_cons]
          rw [if_pos hp]
        rw [hloop, hpass]
        exact ih
      · have hloop : GetStationAroundLoop info company (some t :: rest) none =
            GetStationAroundLoop info company rest (some t) := by
          simp only [GetStationAroundLoop, if_neg hp]
        have hpass : passingIds info company (some t :: rest) =
            t :: passingIds info company rest := by
          simp only [passingIds, List.filterMap_cons]
          rw [if_neg hp]
        rw [hloop, hpass]
        refine ⟨?_, ?_, ?_⟩
        · intro hh
          cases hh
        · intro s hs hall
          have hts : t = s := hall t (List.mem_cons_self _ _)
          subst hts
          exact (gsa_loop_some info company rest t).1
            fun x hx => hall x (List.mem_cons_of_mem _ hx)
        · intro a b ha hb hab
          by_cases hat : a = t
          · subst hat
            have hbt : b ≠ a := fun hh => hab hh.symm
            rcases List.mem_cons.1 hb with rfl | hb
            · exact absurd rfl hab
            · exact (gsa_loop_some info company rest a).2 ⟨b, hb, hbt⟩
          · rcases List.mem_cons.1 ha with rfl | ha
            · exact absurd rfl hat
            · exact (gsa_loop_some info company rest t).2 ⟨a, ha, hat⟩

/-- Witness for C7: stations 1 and 2 both adjoin the scanned area (all
indices valid, owned by company 0, passing the filter), so the scan
with no join target must fail with "adjoins more than one existing
station". -/
theorem getStationAround_ring_scan_witness :
    GetStationAroundLoop (fun _ => NearbyStation.mk true 0 true) 0
        [some 1, none, some 2] none = .error .adjoinsMoreThanOne :=
  (getStationAround_ring_scan (fun _ => NearbyStation.mk true 0 true) 0
      [some 1, none, some 2]).2.2 1 2 (by decide) (by decide) (by decide)

/-! ## Claim theorems for the facility-rectangle shrink -/

theorem colEmpty_eq_false {f : Nat → Nat → Bool} {x y h : Nat} :
    colEmpty f x y h = false ↔ ∃ i, i < h ∧ f x (y + i) = true := by
  simp [colEmpty, List.all_eq_true, List.mem_range]

theorem rowEmpty_eq_false {f : Nat → Nat → Bool} {x y w : Nat} :
    rowEmpty f x y w = false ↔ ∃ i, i < w ∧ f (x + i) y = true := by
  simp [rowEmpty, List.all_eq_true, List.mem_range]

theorem colEmpty_no_member {f : Nat → Nat → Bool} {x y h : Nat}
    (hc : colEmpty f x y h = true) :
    ∀ b, y ≤ b → b < y + h → f x b = false := by
  intro b hb1 hb2
  simp only [colEmpty, List.all_eq_true, List.mem_range] at hc
  have := hc (b - y) (by omega)
  simp only [Bool.not_eq_true'] at this
  rwa [show y + (b - y) = b by omega] at this

theorem rowEmpty_no_member {f : Nat → Nat → Bool} {x y w : Nat}
    (hr : rowEmpty f x y w = true) :
    ∀ a, x ≤ a → a < x + w → f a y = false := by
  intro a ha1 ha2
  simp only [rowEmpty, List.all_eq_true, List.mem_range] at hr
  have := hr (a - x) (by omega)
  simp only [Bool.not_eq_true'] at this
  rwa [show x + (a - x) = a by omega] at this

/-- C8: `MakeStationAreaSmaller` shrinks a facility rectangle by
re-scanning from each edge inward until a populated row/column is
found: whenever it returns `(x', y', w', h')`, the result still
contains every member tile of the original rectangle, and — when the
result is non-empty — each of its four boundary rows/columns contains
at least one member tile.  In particular the rectangle is never shrunk
merely by subtracting a removed tile's coordinates: only provably
member-free border rows/columns are dropped. -/
theorem makeStationAreaSmaller_correct (f : Nat → Nat → Bool) (x y w h : Nat) :
    ∀ x' y' w' h', shrinkArea f x y w h = (x', y', w', h') →
      (∀ a b, x ≤ a → a < x + w → y ≤ b → b < y + h → f a b = true →
        x' ≤ a ∧ a < x' + w' ∧ y' ≤ b ∧ b < y' + h') ∧
      (0 < w' → 0 < h' →
        (∃ i, i < h' ∧ f x' (y' + i) = true) ∧
        (∃ i, i < h' ∧ f (x' + (w' - 1)) (y' + i) = true) ∧
        (∃ j, j < w' ∧ f (x' + j) y' = true) ∧
        (∃ j, j < w' ∧ f (x' + j) (y' + (h' - 1)) = true)) := by
  induction x, y, w, h using shrinkArea.induct f with
  | case1 x y w h hwh =>
    intro x' y' w' h' hres
    rw [shrinkArea, if_pos hwh] at hres
    simp only [Prod.mk.injEq] at hres
    obtain ⟨rfl, rfl, rfl, rfl⟩ := hres
    constructor
    · intro a b ha1 ha2 hb1 hb2 hf
      omega
    · intro hw'
      omega
  | case2 x y w h hwh hcol ih =>
    intro x' y' w' h' hres
    rw [shrinkArea, if_neg hwh, if_pos hcol] at hres
    obtain ⟨hcont, hbound⟩ := ih x' y' w' h' hres
    refine ⟨?_, hbound⟩
    intro a b ha1 ha2 hb1 hb2 hf
    have hax : a ≠ x := by
      intro hax
      subst hax
      rw [colEmpty_no_member hcol b hb1 hb2] at hf
      cases hf
    exact hcont a b (by omega) (by omega) hb1 hb2 hf
  | case3 x y w h hwh hcol1 hcol ih =>
    intro x' y' w' h' hres
    rw [shrinkArea, if_neg hwh, if_neg hcol1, if_pos hcol] at hres
    obtain ⟨hcont, hbound⟩ := ih x' y' w' h' hres
    refine ⟨?_, hbound⟩
    intro a b ha1 ha2 hb1 hb2 hf
    have hax : a ≠ x + (w - 1) := by
      intro hax
      subst hax
      rw [colEmpty_no_member hcol b hb1 hb2] at hf
      cases hf
    exact hcont a b (by omega) (by omega) hb1 hb2 hf
  | case4 x y w h hwh hcol1 hcol2 hrow ih =>
    intro x' y' w' h' hres
    rw [shrinkArea, if_neg hwh, if_neg hcol1, if_neg hcol2, if_pos hrow] at hres
    obtain ⟨hcont, hbound⟩ := ih x' y' w' h' hres
    refine ⟨?_, hbound⟩
    intro a b ha1 ha2 hb1 hb2 hf
    have hby : b ≠ y := by
      intro hby
      subst hby
      rw [rowEmpty_no_member hrow a ha1 ha2] at hf
      cases hf
    exact hcont a b ha1 ha2 (by omega) (by omega) hf
  | case5 x y w h hwh hcol1 hcol2 hrow1 hrow ih =>
    intro x' y' w' h' hres
    rw [shrinkArea, if_neg hwh, if_neg hcol1, if_neg hcol2, if_neg hrow1, if_pos hrow] at hres
    obtain ⟨hcont, hbound⟩ := ih x' y' w' h' hres
    refine ⟨?_, hbound⟩
    intro a b ha1 ha2 hb1 hb2 hf
    have hby : b ≠ y + (h - 1) := by
      intro hby
      subst hby
      rw [rowEmpty_no_member hrow a ha1 ha2] at hf
      cases hf
    exact hcont a b ha1 ha2 (by omega) (by omega) hf
  | case6 x y w h hwh hcol1 hcol2 hrow1 hrow2 =>
    intro x' y' w' h' hres
    rw [shrinkArea, if_neg hwh, if_neg hcol1, if_neg hcol2, if_neg hrow1, if_neg hrow2] at hres
    simp only [Prod.mk.injEq] at hres
    obtain ⟨rfl, rfl, rfl, rfl⟩ := hres
    refine ⟨?_, ?_⟩
    · intro a b ha1 ha2 hb1 hb2 hf
      exact ⟨ha1, ha2, hb1, hb2⟩
    · intro hw' hh'
      rw [Bool.not_eq_true] at hcol1 hcol2 hrow1 hrow2
      exact ⟨colEmpty_eq_false.1 hcol1, colEmpty_eq_false.1 hcol2,
        rowEmpty_eq_false.1 hrow1, rowEmpty_eq_false.1 hrow2⟩

/-- Witness for C8 on a 1-tile area whose tile is a member: the shrink
keeps the rectangle, the member tile is contained and every boundary
row/column is populated. -/
theorem makeStationAreaSmaller_correct_witness :
    (∀ a b, 0 ≤ a → a < 0 + 1 → 0 ≤ b → b < 0 + 1 →
        (fun _ _ => true : Nat → Nat → Bool) a b = true →
        0 ≤ a ∧ a < 0 + 1 ∧ 0 ≤ b ∧ b < 0 + 1) ∧
      (0 < 1 → 0 < 1 →
        (∃ i, i < 1 ∧ (fun _ _ => true : Nat → Nat → Bool) 0 (0 + i) = true) ∧
        (∃ i, i < 1 ∧ (fun _ _ => true : Nat → Nat → Bool) (0 + (1 - 1)) (0 + i) = true) ∧
        (∃ j, j < 1 ∧ (fun _ _ => true : Nat → Nat → Bool) (0 + j) 0 = true) ∧
        (∃ j, j < 1 ∧ (fun _ _ => true : Nat → Nat → Bool) (0 + j) (0 + (1 - 1)) = true)) :=
  makeStationAreaSmaller_correct (fun _ _ => true) 0 0 1 1 0 0 1 1
    (by rw [shrinkArea]; simp [colEmpty, rowEmpty])

/-! ## Claim theorems for the naming industry scan -/

theorem indScan_used_mono (spec : Nat → Nat) (claimed : Nat → Bool) :
    ∀ (tiles : List IndTile) (used : List Nat) (n : Nat),
      n ∈ used → n ∈ (indScanLoop spec claimed tiles used).1 := by
  intro tiles
  induction tiles with
  | nil => intro used n hn; exact hn
  | cons t rest ih =>
    intro used n hn
    by_cases h1 : t.isInd = true
    · by_cases h2 : spec t.indtype = STR_UNDEFINED
      · simpa only [indScanLoop, h1, Bool.not_true, Bool.false_eq_true, if_false,
          if_pos h2] using ih used n hn
      · by_cases h3 : claimed t.indtype = true
        · have hstep : indScanLoop spec claimed (t :: rest) used =
              indScanLoop spec claimed rest
                (STR_SV_STNAME_OILFIELD :: STR_SV_STNAME_MINES :: used) := by
            simp only [indScanLoop, h1, Bool.not_true, Bool.false_eq_true, if_false,
              if_neg h2, if_pos h3]
          rw [hstep]
          exact ih _ n (by simp [hn])
        · by_cases h4 : spec t.indtype = STR_NULL
          · have hstep : indScanLoop spec claimed (t :: rest) used =
                (STR_SV_STNAME_OILFIELD :: STR_SV_STNAME_MINES :: used, none) := by
              simp only [indScanLoop, h1, Bool.not_true, Bool.false_eq_true, if_false,
                if_neg h2, if_neg h3,
                if_neg (show ¬ spec t.indtype ≠ STR_NULL from fun hh => hh h4)]
            rw [hstep]
            simp [hn]
          · have hstep : indScanLoop spec claimed (t :: rest) used =
                (STR_SV_STNAME_OILFIELD :: STR_SV_STNAME_MINES :: used,
                  some t.indtype) := by
              simp only [indScanLoop, h1, Bool.not_true, Bool.false_eq_true, if_false,
                if_neg h2, if_neg h3, if_pos (by simp [h4] : spec t.indtype ≠ STR_NULL)]
            rw [hstep]
            simp [hn]
    · simp only [Bool.not_eq_true] at h1
      simpa only [indScanLoop, h1, Bool.not_false, if_true] using ih used n hn

theorem indScan_claims (spec : Nat → Nat) (claimed : Nat → Bool) :
    ∀ (tiles : List IndTile) (used : List Nat) (t0 : IndTile),
      tiles.find? (fun t =>
        t.isInd && (spec t.indtype != STR_UNDEFINED) && !claimed t.indtype) = some t0 →
      spec t0.indtype ≠ STR_NULL →
      (indScanLoop spec claimed tiles used).2 = some t0.indtype := by
  intro tiles
  induction tiles with
  | nil => intro used t0 hf; cases hf
  | cons t rest ih =>
    intro used t0 hf hnull
    by_cases hp : (t.isInd && (spec t.indtype != STR_UNDEFINED) && !claimed t.indtype) = true
    · simp only [List.find?, hp] at hf
      obtain rfl := Option.some.inj hf
      simp only [Bool.and_eq_true, bne_iff_ne, Bool.not_eq_true'] at hp
      obtain ⟨⟨h1, h2⟩, h3⟩ := hp
      simp only [indScanLoop, h1, Bool.not_true, Bool.false_eq_true, if_false,
        if_neg h2, h3, Bool.false_eq_true, if_false, if_pos hnull]
    · have hp' : (t.isInd && (spec t.indtype != STR_UNDEFINED) && !claimed t.indtype)
          = false := by
        revert hp
        cases t.isInd && (spec t.indtype != STR_UNDEFINED) && !claimed t.indtype <;> simp
      simp only [List.find?, hp'] at hf
      simp only [Bool.and_eq_true, bne_iff_ne, Bool.not_eq_true', not_and_or,
        Bool.not_eq_true] at hp
      by_cases h1 : t.isInd = true
      · by_cases h2 : spec t.indtype = STR_UNDEFINED
        · simpa only [indScanLoop, h1, Bool.not_true, Bool.false_eq_true, if_false,
            if_pos h2] using ih used t0 hf hnull
        · have h3 : claimed t.indtype = true := by
            rcases hp with (hp | hp) | hp
            · rw [h1] at hp; cases hp
            · exact absurd hp (by simp [h2])
            · simpa using hp
          have hstep : indScanLoop spec claimed (t :: rest) used =
              indScanLoop spec claimed rest
                (STR_SV_STNAME_OILFIELD :: STR_SV_STNAME_MINES :: used) := by
            simp only [indScanLoop, h1, Bool.not_true, Bool.false_eq_true, if_false,
              if_neg h2, if_pos h3]
          rw [hstep]
          exact ih _ t0 hf hnull
      · simp only [Bool.not_eq_true] at h1
        simpa only [indScanLoop, h1, Bool.not_false, if_true] using ih used t0 hf hnull

/-- C9: during default-name generation, if the spiral scan contains an
industry tile whose industry type specifies a custom station-name
override (`station_name != STR_UNDEFINED`), the two fallback names
"oilfield" and "mines" end up marked used; and if the first scanned
industry tile with an override that is not already claimed by a
same-named industry type has an override other than the
"no name, just block the fallbacks" sentinel (`STR_NULL`), the station
claims that industry's name (the scan returns its industry type). -/
theorem generateStationName_industry_scan (spec : Nat → Nat) (claimed : Nat → Bool)
    (tiles : List IndTile) (used : List Nat)
    (hex : ∃ t ∈ tiles, t.isInd = true ∧ spec t.indtype ≠ STR_UNDEFINED) :
    (STR_SV_STNAME_OILFIELD ∈ (indScanLoop spec claimed tiles used).1 ∧
      STR_SV_STNAME_MINES ∈ (indScanLoop spec claimed tiles used).1) ∧
      (∀ t0, tiles.find? (fun t =>
          t.isInd && (spec t.indtype != STR_UNDEFINED) && !claimed t.indtype) = some t0 →
        spec t0.indtype ≠ STR_NULL →
        (indScanLoop spec claimed tiles used).2 = some t0.indtype) := by
  refine ⟨?_, fun t0 hf hnull => indScan_claims spec claimed tiles used t0 hf hnull⟩
  induction tiles with
  | nil => simp at hex
  | cons t rest ih =>
    by_cases h1 : t.isInd = true
    · by_cases h2 : spec t.indtype = STR_UNDEFINED
      · have hex' : ∃ t' ∈ rest, t'.isInd = true ∧ spec t'.indtype ≠ STR_UNDEFINED := by
          obtain ⟨t', ht', hq⟩ := hex
          rcases List.mem_cons.1 ht' with rfl | ht'
          · exact absurd h2 hq.2
          · exact ⟨t', ht', hq⟩
        simpa only [indScanLoop, h1, Bool.not_true, Bool.false_eq_true, if_false,
          if_pos h2] using ih hex'
      · by_cases h3 : claimed t.indtype = true
        · have hstep : indScanLoop spec claimed (t :: rest) used =
              indScanLoop spec claimed rest
                (STR_SV_STNAME_OILFIELD :: STR_SV_STNAME_MINES :: used) := by
            simp only [indScanLoop, h1, Bool.not_true, Bool.false_eq_true, if_false,
              if_neg h2, if_pos h3]
          rw [hstep]
          constructor
          · exact indScan_used_mono spec claimed rest _ _ (by simp)
          · exact indScan_used_mono spec claimed rest _ _ (by simp)
        · by_cases h4 : spec t.indtype = STR_NULL
          · have hstep : indScanLoop spec claimed (t :: rest) used =
                (STR_SV_STNAME_OILFIELD :: STR_SV_STNAME_MINES :: used, none) := by
              simp only [indScanLoop, h1, Bool.not_true, Bool.false_eq_true, if_false,
                if_neg h2, if_neg h3,
                if_neg (show ¬ spec t.indtype ≠ STR_NULL from fun hh => hh h4)]
            rw [hstep]
            simp
          · have hstep : indScanLoop spec claimed (t :: rest) used =
                (STR_SV_STNAME_OILFIELD :: STR_SV_STNAME_MINES :: used,
                  some t.indtype) := by
              simp only [indScanLoop, h1, Bool.not_true, Bool.false_eq_true, if_false,
                if_neg h2, if_neg h3,
                if_pos (by simp [h4] : spec t.indtype ≠ STR_NULL)]
            rw [hstep]
            simp
    · simp only [Bool.not_eq_true] at h1
      have hex' : ∃ t' ∈ rest, t'.isInd = true ∧ spec t'.indtype ≠ STR_UNDEFINED := by
        obtain ⟨t', ht', hq⟩ := hex
        rcases List.mem_cons.1 ht' with rfl | ht'
        · rw [h1] at hq; exact absurd hq.1 (by simp)
        · exact ⟨t', ht', hq⟩
      simpa only [indScanLoop, h1, Bool.not_false, if_true] using ih hex'

/-- Witness for C9: one industry tile of type 7 whose specification
names stations (override 42), nothing claimed yet. -/
theorem generateStationName_industry_scan_witness :
    (STR_SV_STNAME_OILFIELD ∈
        (indScanLoop (fun i => if i = 7 then 42 else STR_UNDEFINED) (fun _ => false)
          [IndTile.mk true 7] []).1 ∧
      STR_SV_STNAME_MINES ∈
        (indScanLoop (fun i => if i = 7 then 42 else STR_UNDEFINED) (fun _ => false)
          [IndTile.mk true 7] []).1) ∧
      (∀ t0, [IndTile.mk true 7].find? (fun t =>
          t.isInd &&
            ((fun i => if i = 7 then 42 else STR_UNDEFINED) t.indtype != STR_UNDEFINED) &&
            !(fun _ => false) t.indtype) = some t0 →
        (fun i => if i = 7 then 42 else STR_UNDEFINED) t0.indtype ≠ STR_NULL →
        (indScanLoop (fun i => if i = 7 then 42 else STR_UNDEFINED) (fun _ => false)
          [IndTile.mk true 7] []).2 = some t0.indtype) :=
  generateStationName_industry_scan (fun i => if i = 7 then 42 else STR_UNDEFINED)
    (fun _ => false) [IndTile.mk true 7] [] ⟨IndTile.mk true 7, by decide⟩

/-! ## Claim theorems for rail-station tile removal -/

/-- A tile on which the per-tile checks of `RemoveFromRailBaseStation`
do not all pass: not a rail-station tile, a vehicle in the way, an
invalid owning station, or (for a non-water remover) failed ownership. -/
def tileFails (isWater : Bool) (t : RTile) : Prop :=
  t.hasStationRail = false ∨ t.vehicleErr.isSome = true ∨ t.stValid = false ∨
    (isWater = false ∧ t.ownerErr.isSome = true)

instance (isWater : Bool) (t : RTile) : Decidable (tileFails isWater t) :=
  inferInstanceAs (Decidable (t.hasStationRail = false ∨ t.vehicleErr.isSome = true ∨
    t.stValid = false ∨ (isWater = false ∧ t.ownerErr.isSome = true)))

/-- A tile that contributes an error to the accumulator of
`RemoveFromRailBaseStation`: a rail-station tile whose vehicle check
fails, or one whose vehicle check passes, whose owning station is
valid and whose ownership check fails for a non-water remover. -/
def tileAccumulates (isWater : Bool) (t : RTile) : Prop :=
  t.hasStationRail = true ∧ (t.vehicleErr.isSome = true ∨
    (t.vehicleErr = none ∧ t.stValid = true ∧ isWater = false ∧
      t.ownerErr.isSome = true))

instance (isWater : Bool) (t : RTile) : Decidable (tileAccumulates isWater t) :=
  inferInstanceAs (Decidable (t.hasStationRail = true ∧ (t.vehicleErr.isSome = true ∨
    (t.vehicleErr = none ∧ t.stValid = true ∧ isWater = false ∧
      t.ownerErr.isSome = true))))

theorem removeLoop_fst_eq (isWater execute : Bool) :
    ∀ (tiles : List RTile) (acc : Option Nat) (q : Nat) (mtd : List RTile),
      (removeLoop isWater execute tiles acc q mtd).1 =
        removeErrAcc isWater acc tiles := by
  intro tiles
  induction tiles with
  | nil => intro acc q mtd; rfl
  | cons t rest ih =>
    intro acc q mtd
    have hfold : removeErrAcc isWater acc (t :: rest) =
        removeErrAcc isWater (removeErrStep isWater acc t) rest := rfl
    rw [hfold]
    by_cases h1 : t.hasStationRail = true
    · cases hv : t.vehicleErr with
      | some c =>
        have hstep : removeLoop isWater execute (t :: rest) acc q mtd =
            removeLoop isWater execute rest (some c) q mtd := by
          simp only [removeLoop, h1, Bool.not_true, Bool.false_eq_true, if_false,
            addCostErr, hv, Option.isSome_some, if_true]
        have hs : removeErrStep isWater acc t = some c := by
          simp [removeErrStep, h1, addCostErr, hv]
        rw [hstep, hs]
        exact ih (some c) q mtd
      | none =>
        cases acc with
        | some c0 =>
          have hstep : removeLoop isWater execute (t :: rest) (some c0) q mtd =
              removeLoop isWater execute rest (some c0) q mtd := by
            simp only [removeLoop, h1, Bool.not_true, Bool.false_eq_true, if_false,
              addCostErr, hv, Option.isSome_some, if_true]
          have hs : removeErrStep isWater (some c0) t = some c0 := by
            simp [removeErrStep, h1, addCostErr, hv]
          rw [hstep, hs]
          exact ih (some c0) q mtd
        | none =>
          by_cases h2 : t.stValid = true
          · by_cases hw : isWater = true
            · have hstep : removeLoop isWater execute (t :: rest) none q mtd =
                  removeLoop isWater execute rest none (q + 1)
                    (if execute then mtd ++ [t] else mtd) := by
                simp only [removeLoop, h1, Bool.not_true, Bool.false_eq_true, if_false,
                  addCostErr, hv, Option.isSome_none, h2, hw, if_true]
              have hs : removeErrStep isWater none t = none := by
                simp [removeErrStep, h1, addCostErr, hv, h2, hw]
              rw [hstep, hs]
              exact ih none (q + 1) (if execute then mtd ++ [t] else mtd)
            · simp only [Bool.not_eq_true] at hw
              cases ho : t.ownerErr with
              | some c =>
                have hstep : removeLoop isWater execute (t :: rest) none q mtd =
                    removeLoop isWater execute rest (some c) q mtd := by
                  simp only [removeLoop, h1, Bool.not_true, Bool.false_eq_true, if_false,
                    addCostErr, hv, Option.isSome_none, h2, hw, ho,
                    Option.isSome_some, if_true]
                have hs : removeErrStep isWater none t = some c := by
                  simp [removeErrStep, h1, addCostErr, hv, h2, hw, ho]
                rw [hstep, hs]
                exact ih (some c) q mtd
              | none =>
                have hstep : removeLoop isWater execute (t :: rest) none q mtd =
                    removeLoop isWater execute rest none (q + 1)
                      (if execute then mtd ++ [t] else mtd) := by
                  simp only [removeLoop, h1, Bool.not_true, Bool.false_eq_true, if_false,
                    addCostErr, hv, Option.isSome_none, h2, hw, ho, if_true]
                have hs : removeErrStep isWater none t = none := by
                  simp [removeErrStep, h1, addCostErr, hv, h2, hw, ho]
                rw [hstep, hs]
                exact ih none (q + 1) (if execute then mtd ++ [t] else mtd)
          · simp only [Bool.not_eq_true] at h2
            have hstep : removeLoop isWater execute (t :: rest) none q mtd =
                removeLoop isWater execute rest none q mtd := by
              simp only [removeLoop, h1, Bool.not_true, Bool.false_eq_true, if_false,
                addCostErr, hv, Option.isSome_none, h2, Bool.not_false, if_true]
            have hs : removeErrStep isWater none t = none := by
              simp [removeErrStep, h1, addCostErr, hv, h2]
            rw [hstep, hs]
            exact ih none q mtd
    · simp only [Bool.not_eq_true] at h1
      have hstep : removeLoop isWater execute (t :: rest) acc q mtd =
          removeLoop isWater execute rest acc q mtd := by
        simp only [removeLoop, h1, Bool.not_false, if_true]
      have hs : removeErrStep isWater acc t = acc := by
        simp [removeErrStep, h1]
      rw [hstep, hs]
      exact ih acc q mtd

theorem removeErrAcc_isSome_mono (isWater : Bool) :
    ∀ (tiles : List RTile) (c : Nat),
      (removeErrAcc isWater (some c) tiles).isSome = true := by
  intro tiles
  induction tiles with
  | nil => intro c; rfl
  | cons t rest ih =>
    intro c
    have hfold : removeErrAcc isWater (some c) (t :: rest) =
        removeErrAcc isWater (removeErrStep isWater (some c) t) rest := rfl
    rw [hfold]
    by_cases h1 : t.hasStationRail = true
    · cases hv : t.vehicleErr with
      | some c2 =>
        have hs : removeErrStep isWater (some c) t = some c2 := by
          simp [removeErrStep, h1, addCostErr, hv]
        rw [hs]
        exact ih c2
      | none =>
        have hs : removeErrStep isWater (some c) t = some c := by
          simp [removeErrStep, h1, addCostErr, hv]
        rw [hs]
        exact ih c
    · simp only [Bool.not_eq_true] at h1
      have hs : removeErrStep isWater (some c) t = some c := by
        simp [removeErrStep, h1]
      rw [hs]
      exact ih c

theorem removeErrAcc_isSome_of_mem (isWater : Bool) :
    ∀ (tiles : List RTile) (acc : Option Nat),
      (∃ t ∈ tiles, tileAccumulates isWater t) →
      (removeErrAcc isWater acc tiles).isSome = true := by
  intro tiles
  induction tiles with
  | nil =>
    intro acc h
    obtain ⟨t, ht, _⟩ := h
    cases ht
  | cons t rest ih =>
    intro acc h
    have hfold : removeErrAcc isWater acc (t :: rest) =
        removeErrAcc isWater (removeErrStep isWater acc t) rest := rfl
    rw [hfold]
    obtain ⟨u, hu, hau⟩ := h
    rcases List.mem_cons.mp hu with heq | hmem
    · rw [heq] at hau
      obtain ⟨hr, hcase⟩ := hau
      rcases hcase with hveh | ⟨hvn, hst, hwf, hown⟩
      · obtain ⟨c, hc⟩ := Option.isSome_iff_exists.mp hveh
        have hs : removeErrStep isWater acc t = some c := by
          simp [removeErrStep, hr, addCostErr, hc]
        rw [hs]
        exact removeErrAcc_isSome_mono isWater rest c
      · obtain ⟨c, hc⟩ := Option.isSome_iff_exists.mp hown
        cases acc with
        | some c0 =>
          have hs : removeErrStep isWater (some c0) t = some c0 := by
            simp [removeErrStep, hr, addCostErr, hvn]
          rw [hs]
          exact removeErrAcc_isSome_mono isWater rest c0
        | none =>
          have hs : removeErrStep isWater none t = some c := by
            simp [removeErrStep, hr, addCostErr, hvn, hst, hwf, hc]
          rw [hs]
          exact removeErrAcc_isSome_mono isWater rest c
    · exact ih (removeErrStep isWater acc t) ⟨u, hmem, hau⟩

theorem removeErrAcc_none_of_clean (isWater : Bool) :
    ∀ (tiles : List RTile),
      (∀ t ∈ tiles, ¬ tileAccumulates isWater t) →
      removeErrAcc isWater none tiles = none := by
  intro tiles
  induction tiles with
  | nil => intro h; rfl
  | cons t rest ih =>
    intro h
    have hfold : removeErrAcc isWater none (t :: rest) =
        removeErrAcc isWater (removeErrStep isWater none t) rest := rfl
    rw [hfold]
    have hs : removeErrStep isWater none t = none := by
      have hnt := h t (List.mem_cons_self t rest)
      by_cases h1 : t.hasStationRail = true
      · cases hv : t.vehicleErr with
        | some c =>
          exact absurd ⟨h1, Or.inl (by rw [hv]; rfl)⟩ hnt
        | none =>
          by_cases h2 : t.stValid = true
          · by_cases hw : isWater = true
            · simp [removeErrStep, h1, addCostErr, hv, h2, hw]
            · simp only [Bool.not_eq_true] at hw
              cases ho : t.ownerErr with
              | some c =>
                exact absurd ⟨h1, Or.inr ⟨hv, h2, hw, by rw [ho]; rfl⟩⟩ hnt
              | none =>
                simp [removeErrStep, h1, addCostErr, hv, h2, hw, ho]
          · simp only [Bool.not_eq_true] at h2
            simp [removeErrStep, h1, addCostErr, hv, h2]
      · simp only [Bool.not_eq_true] at h1
        simp [removeErrStep, h1]
    rw [hs]
    exact ih (fun u hu => h u (List.mem_cons_of_mem t hu))

theorem removeLoop_all_fail (isWater execute : Bool) :
    ∀ (tiles : List RTile) (acc : Option Nat) (q : Nat) (mtd : List RTile),
      (∀ t ∈ tiles, tileFails isWater t) →
      (removeLoop isWater execute tiles acc q mtd).2.1 = q ∧
        (removeLoop isWater execute tiles acc q mtd).2.2 = mtd ∧
        ((removeLoop isWater execute tiles acc q mtd).1 = acc ∨
          ∃ e, (removeLoop isWater execute tiles acc q mtd).1 = some e ∧
            ∃ t ∈ tiles, t.vehicleErr = some e ∨
              (isWater = false ∧ t.ownerErr = some e)) := by
  intro tiles
  induction tiles with
  | nil =>
    intro acc q mtd _
    exact ⟨rfl, rfl, Or.inl rfl⟩
  | cons t rest ih =>
    intro acc q mtd hfail
    have hrest : ∀ t' ∈ rest, tileFails isWater t' :=
      fun t' ht' => hfail t' (List.mem_cons_of_mem _ ht')
    by_cases h1 : t.hasStationRail = true
    · -- rail-station tile: the vehicle check runs first
      cases hv : t.vehicleErr with
      | some c =>
        have hstep : removeLoop isWater execute (t :: rest) acc q mtd =
            removeLoop isWater execute rest (some c) q mtd := by
          simp only [removeLoop, h1, Bool.not_true, Bool.false_eq_true, if_false,
            addCostErr, hv, Option.isSome_some, if_true]
        rw [hstep]
        obtain ⟨hq, hm, hacc⟩ := ih (some c) q mtd hrest
        refine ⟨hq, hm, ?_⟩
        rcases hacc with heq | ⟨e, he, t', ht', hor⟩
        · exact Or.inr ⟨c, heq, t, List.mem_cons_self _ _, Or.inl hv⟩
        · exact Or.inr ⟨e, he, t', List.mem_cons_of_mem _ ht', hor⟩
      | none =>
        -- no vehicle error: the accumulator passes through unchanged
        cases acc with
        | some c0 =>
          have hstep : removeLoop isWater execute (t :: rest) (some c0) q mtd =
              removeLoop isWater execute rest (some c0) q mtd := by
            simp only [removeLoop, h1, Bool.not_true, Bool.false_eq_true, if_false,
              addCostErr, hv, Option.isSome_some, if_true]
          rw [hstep]
          obtain ⟨hq, hm, hacc⟩ := ih (some c0) q mtd hrest
          refine ⟨hq, hm, ?_⟩
          rcases hacc with heq | ⟨e, he, t', ht', hor⟩
          · exact Or.inl heq
          · exact Or.inr ⟨e, he, t', List.mem_cons_of_mem _ ht', hor⟩
        | none =>
          by_cases h2 : t.stValid = true
          · -- the ownership check must fail (water owners never reach here
            -- under the all-fail hypothesis)
            have hW : isWater = false ∧ t.ownerErr.isSome = true := by
              rcases hfail t (List.mem_cons_self _ _) with hx | hx | hx | hx
              · rw [h1] at hx; cases hx
              · rw [hv] at hx; cases hx
              · rw [h2] at hx; cases hx
              · exact hx
            cases ho : t.ownerErr with
            | none => rw [ho] at hW; cases hW.2
            | some c =>
              have hstep : removeLoop isWater execute (t :: rest) none q mtd =
                  removeLoop isWater execute rest (some c) q mtd := by
                simp only [removeLoop, h1, Bool.not_true, Bool.false_eq_true, if_false,
                  addCostErr, hv, Option.isSome_none, Bool.false_eq_true,
                  if_false, h2, Bool.not_true, hW.1, ho, Option.isSome_some, if_true]
              rw [hstep]
              obtain ⟨hq, hm, hacc⟩ := ih (some c) q mtd hrest
              refine ⟨hq, hm, ?_⟩
              rcases hacc with heq | ⟨e, he, t', ht', hor⟩
              · exact Or.inr ⟨c, heq, t, List.mem_cons_self _ _, Or.inr ⟨hW.1, ho⟩⟩
              · exact Or.inr ⟨e, he, t', List.mem_cons_of_mem _ ht', hor⟩
          · simp only [Bool.not_eq_true] at h2
            have hstep : removeLoop isWater execute (t :: rest) none q mtd =
                removeLoop isWater execute rest none q mtd := by
              simp only [removeLoop, h1, Bool.not_true, Bool.false_eq_true, if_false,
                addCostErr, hv, Option.isSome_none, Bool.false_eq_true,
                if_false, h2, Bool.not_false, if_true]
            rw [hstep]
            obtain ⟨hq, hm, hacc⟩ := ih none q mtd hrest
            refine ⟨hq, hm, ?_⟩
            rcases hacc with heq | ⟨e, he, t', ht', hor⟩
            · exact Or.inl heq
            · exact Or.inr ⟨e, he, t', List.mem_cons_of_mem _ ht', hor⟩
    · simp only [Bool.not_eq_true] at h1
      have hstep : removeLoop isWater execute (t :: rest) acc q mtd =
          removeLoop isWater execute rest acc q mtd := by
        simp only [removeLoop, h1, Bool.not_false, if_true]
      rw [hstep]
      obtain ⟨hq, hm, hacc⟩ := ih acc q mtd hrest
      refine ⟨hq, hm, ?_⟩
      rcases hacc with heq | ⟨e, he, t', ht', hor⟩
      · exact Or.inl heq
      · exact Or.inr ⟨e, he, t', List.mem_cons_of_mem _ ht', hor⟩

/-- C10: when every tile of the target area fails the per-tile checks
of `RemoveFromRailBaseStation` (not a rail-station tile, vehicle in the
way, invalid station, or — for a non-water remover — failed ownership),
the command fails and no tile is mutated (the execute-phase clear list
is empty, and the per-station post-processing is never reached).
Moreover the returned error is exactly the error accumulated by the
per-tile loop when one was accumulated — and any accumulated error is
the vehicle or ownership error of one of the tiles — while the "there
is no station" error is returned exactly when no tile contributed an
error to the accumulator. -/
theorem removeFromRailBaseStation_all_fail (isWater execute : Bool)
    (tiles : List RTile) (hfail : ∀ t ∈ tiles, tileFails isWater t) :
    (∃ e, (RemoveFromRailBaseStation isWater execute tiles).1 = .error e ∧
        (e = STR_ERROR_THERE_IS_NO_STATION ∨
          ∃ t ∈ tiles, t.vehicleErr = some e ∨
            (isWater = false ∧ t.ownerErr = some e))) ∧
      (RemoveFromRailBaseStation isWater execute tiles).2 = [] ∧
      ((∀ t ∈ tiles, t.vehicleErr = none ∧ (isWater = true ∨ t.ownerErr = none)) →
        (RemoveFromRailBaseStation isWater execute tiles).1 =
          .error STR_ERROR_THERE_IS_NO_STATION) ∧
      (RemoveFromRailBaseStation isWater execute tiles).1 =
        .error ((removeErrAcc isWater none tiles).getD
          STR_ERROR_THERE_IS_NO_STATION) ∧
      (∀ e, removeErrAcc isWater none tiles = some e →
        ∃ t ∈ tiles, t.vehicleErr = some e ∨
          (isWater = false ∧ t.ownerErr = some e)) ∧
      (removeErrAcc isWater none tiles = none ↔
        ∀ t ∈ tiles, ¬ tileAccumulates isWater t) := by
  obtain ⟨hq, hm, hacc⟩ := removeLoop_all_fail isWater execute tiles none 0 [] hfail
  have hfst := removeLoop_fst_eq isWater execute tiles none 0 []
  unfold RemoveFromRailBaseStation
  rw [if_pos hq]
  refine ⟨?_, hm, ?_, ?_, ?_, ?_⟩
  · rcases hacc with heq | ⟨e, he, t', ht', hor⟩
    · exact ⟨STR_ERROR_THERE_IS_NO_STATION, by rw [heq]; rfl, Or.inl rfl⟩
    · exact ⟨e, by rw [he]; rfl, Or.inr ⟨t', ht', hor⟩⟩
  · intro hnone
    rcases hacc with heq | ⟨e, he, t', ht', hor⟩
    · rw [heq]
      rfl
    · exfalso
      obtain ⟨hveh, hown⟩ := hnone t' ht'
      rcases hor with hx | ⟨hWf, hx⟩
      · rw [hveh] at hx
        cases hx
      · rcases hown with hW | hown
        · rw [hW] at hWf
          cases hWf
        · rw [hown] at hx
          cases hx
  · have h4 : (Except.error
        (((removeLoop isWater execute tiles none 0 []).1).getD
          STR_ERROR_THERE_IS_NO_STATION) : Except Nat Unit) =
        Except.error ((removeErrAcc isWater none tiles).getD
          STR_ERROR_THERE_IS_NO_STATION) := by
      rw [hfst]
    exact h4
  · intro e he
    rcases hacc with heq | ⟨e', he', t', ht', hor⟩
    · rw [hfst] at heq
      exact Option.noConfusion (he.symm.trans heq)
    · rw [hfst] at he'
      have hee := he.symm.trans he'
      injection hee with hee'
      subst hee'
      exact ⟨t', ht', hor⟩
  · constructor
    · intro hnone u hu hau
      have hsome := removeErrAcc_isSome_of_mem isWater tiles none ⟨u, hu, hau⟩
      rw [hnone] at hsome
      simp at hsome
    · intro hclean
      exact removeErrAcc_none_of_clean isWater tiles hclean

/-- Witness for C10: a two-tile area whose first tile is not a rail
station tile and whose second tile has a vehicle on it (error code 5);
the removal command fails with exactly the accumulated per-tile error
and mutates nothing. -/
theorem removeFromRailBaseStation_all_fail_witness :
    (∃ e, (RemoveFromRailBaseStation false true
          [RTile.mk false none true none, RTile.mk true (some 5) true none]).1 =
        .error e ∧
        (e = STR_ERROR_THERE_IS_NO_STATION ∨
          ∃ t ∈ [RTile.mk false none true none, RTile.mk true (some 5) true none],
            t.vehicleErr = some e ∨ (false = false ∧ t.ownerErr = some e))) ∧
      (RemoveFromRailBaseStation false true
          [RTile.mk false none true none, RTile.mk true (some 5) true none]).2 = [] ∧
      ((∀ t ∈ [RTile.mk false none true none, RTile.mk true (some 5) true none],
          t.vehicleErr = none ∧ (false = true ∨ t.ownerErr = none)) →
        (RemoveFromRailBaseStation false true
            [RTile.mk false none true none, RTile.mk true (some 5) true none]).1 =
          .error STR_ERROR_THERE_IS_NO_STATION) ∧
      (RemoveFromRailBaseStation false true
          [RTile.mk false none true none, RTile.mk true (some 5) true none]).1 =
        .error ((removeErrAcc false none
            [RTile.mk false none true none, RTile.mk true (some 5) true none]).getD
          STR_ERROR_THERE_IS_NO_STATION) ∧
      (∀ e, removeErrAcc false none
          [RTile.mk false none true none, RTile.mk true (some 5) true none] = some e →
        ∃ t ∈ [RTile.mk false none true none, RTile.mk true (some 5) true none],
          t.vehicleErr = some e ∨ (false = false ∧ t.ownerErr = some e)) ∧
      (removeErrAcc false none
          [RTile.mk false none true none, RTile.mk true (some 5) true none] = none ↔
        ∀ t ∈ [RTile.mk false none true none, RTile.mk true (some 5) true none],
          ¬ tileAccumulates false t) :=
  removeFromRailBaseStation_all_fail false true
    [RTile.mk false none true none, RTile.mk true (some 5) true none] (by decide)

end OpenTTDStation
